import Mathlib

/-!
# BitGo wallet recovery tool

A shallow embedding of `src/recoveryTool.js` and `src/util.js`: the base-address search
(`findBaseAddress`), the gap-limited sub-address scan (`findSubAddresses`), the unspent
aggregation (`findUnspents`) and the transaction construction (`createTransaction`).

Conventions of the embedding.

* The callback chains of the source are sequential: each oracle request is issued from the
  callback of the previous one.  They are embedded as recursive functions that return, next to
  their result, the list of probes in the order in which they were issued.
* A `throw new Error(errorHeader + msg)` that is executed by the stage itself, so that the
  promise chain of `run` is rejected with it, is embedded as `Except.error` with one
  constructor of `RecoveryError` per message of the source.  The `throw` of `findBaseAddress`
  is executed in a callback whose promise is discarded; it is embedded as the outcome
  `BaseAddressOutcome.neverSettled`.
* Strings are Lean strings; every path of the source is ASCII, so that Lean characters and
  JavaScript code units coincide.
* The functions of `bitcoinjs-lib` and of the HD node module are not part of the repository;
  they are the fields of the structures `Lib` and `TxLib`.  Where such a call can throw in
  `createTransaction`, a field of `TxLib` tells whether it returns, and a throw that the source
  does not catch ends the stage with `RecoveryError.libraryError`.
* The oracle is a function from addresses to answers: every request succeeds and every body
  is well-formed JSON.  The requests of `findUnspents` are issued together; the order in which
  their answers arrive is an argument of the embedding.
* JavaScript numbers are embedded exactly: integers that stay below `2 ^ 53` (indices, counts,
  sizes) as natural numbers, and the amounts of `createTransaction` as dyadic rationals whose
  arithmetic rounds to 53 significant bits (`Num`).
* The definitions come first, followed by the data of the examples and the formulations of the
  specification; the theorems follow, grouped by function.
-/

set_option linter.unusedVariables false

namespace RecoveryTool

/-- A byte buffer. -/
abbrev Bytes := List Nat

/-- The library functions the tool calls, taken as parameters.
`deriveFromPath key path` is `key.deriveFromPath(path).pubKey`,
`multisigOutput m pubKeys` is `Scripts.multisigOutput(m, pubKeys).toBuffer()`,
`addressFromOutputScript s` is
`Address.fromOutputScript(s, networks.bitcoin).toBase58Check()`. -/
structure Lib where
  deriveFromPath : String → String → Bytes
  multisigOutput : Nat → List Bytes → Bytes
  sha256 : Bytes → Bytes
  ripemd160 : Bytes → Bytes
  scriptHashOutput : Bytes → Bytes
  addressFromOutputScript : Bytes → String

/-- The errors a stage can end with: the messages of the `throw new Error(...)` statements of
`recoveryTool.js`, and the errors that a library call throws outside the `try` blocks of the
source. -/
inductive RecoveryError where
  /-- The message 'could not find address with balance' of `findBaseAddress`. -/
  | couldNotFindAddress
  /-- The message 'could not find any unspents for this address' of `findUnspents`. -/
  | couldNotFindUnspents
  /-- The message 'Insufficient funds to recover' of `createTransaction`. -/
  | insufficientFunds
  /-- The message 'Signature failure for user key' of `createTransaction`. -/
  | signatureFailureUserKey
  /-- The message 'Signature failure for backup key' of `createTransaction`. -/
  | signatureFailureBackupKey
  /-- An error thrown by a call into `bitcoinjs-lib` or `Buffer` that the source does not
  catch, such as the assertion of `transaction.addInput` on the length of the hash. -/
  | libraryError
deriving DecidableEq, Repr

/-! ## `util.js` -/

namespace util

/-- The function `util.p2shMultisigOutputScript` of `util.js`: the redeem script is built by
`Scripts.multisigOutput(2, pubKeys)`, whatever `m` is. -/
def p2shMultisigOutputScript (lib : Lib) (m : Nat) (pubKeys : List Bytes) : Bytes :=
  let redeemScript := lib.multisigOutput 2 pubKeys
  let hash := lib.ripemd160 (lib.sha256 redeemScript)
  lib.scriptHashOutput hash

/-- What the documentation comment of `util.p2shMultisigOutputScript` describes: the script
hash output of the `m` of `n` multisig redeem script over `pubKeys`. -/
def p2shMultisigOutputScriptDoc (lib : Lib) (m : Nat) (pubKeys : List Bytes) : Bytes :=
  lib.scriptHashOutput (lib.ripemd160 (lib.sha256 (lib.multisigOutput m pubKeys)))

end util

/-- The computation `Address.fromOutputScript(util.p2shMultisigOutputScript(2, pubKeys),
networks.bitcoin).toBase58Check()` shared by `tryPath` and `tryAddress`. -/
def multisigAddress (lib : Lib) (pubKeys : List Bytes) : String :=
  lib.addressFromOutputScript (util.p2shMultisigOutputScript lib 2 pubKeys)

/-! ## `findBaseAddress` -/

/-- The JavaScript `s.substring(0, n)` for `0 ≤ n`. -/
def substring0 (s : String) (n : Nat) : String :=
  String.mk (s.data.take n)

/-- The expression `path.substring(0, path.length - 4)` of `tryPath`; a negative end index is
clamped to `0` by `substring`, as truncated subtraction does. -/
def basePath (path : String) : String :=
  substring0 path (path.length - 4)

/-- A key together with a derivation path: one element of `keys` in `findBaseAddress` and of
`result.keys` in `tryPath`. -/
structure KeyPath where
  key : String
  path : String
deriving DecidableEq, Repr

/-- The `result` object of `tryPath`, consumed as `baseAddress` by `findSubAddresses`. -/
structure WalletAddress where
  address : String
  keys : List KeyPath
deriving DecidableEq, Repr

/-- One request to the address-info oracle made by `tryPath`: the three paths set by the
caller and the address they derive. -/
structure Probe where
  paths : List String
  address : String
deriving DecidableEq, Repr

/-- The inputs of `findBaseAddress`: the library, the three keys and the oracle's answer
`body.data.nb_txs` for each address. -/
structure Search where
  lib : Lib
  userKey : String
  backupKey : String
  bitgoKey : String
  nb_txs : String → Nat

def INITIAL_BITGO_KEY_TO_TRY : Nat := 101
def MAX_BITGO_KEY_TO_TRY : Nat := 120
def MAX_ADDRESS_INDEX_TO_TRY : Nat := 3

/-- The address that `tryPath` computes from the current paths of the three keys. -/
def pathAddress (s : Search) (p0 p1 p2 : String) : String :=
  multisigAddress s.lib
    [s.lib.deriveFromPath s.userKey p0, s.lib.deriveFromPath s.backupKey p1,
     s.lib.deriveFromPath s.bitgoKey p2]

/-- The probe that `tryPath` issues for the paths `p0`, `p1`, `p2`. -/
def probeOf (s : Search) (p0 p1 p2 : String) : Probe :=
  { paths := [p0, p1, p2], address := pathAddress s p0 p1 p2 }

/-- The function `tryPath` of `findBaseAddress`, with the paths of `keys[0..2]` as arguments:
the result object when the address has `nb_txs > 0`, and `null` otherwise. -/
def tryPath (s : Search) (p0 p1 p2 : String) : Option WalletAddress :=
  let baseAddress := pathAddress s p0 p1 p2
  if s.nb_txs baseAddress > 0 then
    some { address := baseAddress,
           keys := [ { key := s.userKey, path := basePath p0 },
                     { key := s.backupKey, path := basePath p1 },
                     { key := s.bitgoKey, path := basePath p2 } ] }
  else none

/-- The user-key path set by `tryOldKeys`. -/
def oldUserPath (addressIndex : Nat) : String := "m/100'/101/0/" ++ toString addressIndex
/-- The backup-key path set by `tryOldKeys`. -/
def oldBackupPath (addressIndex : Nat) : String := "m/101/0/" ++ toString addressIndex
/-- The bitgo-key path set by `tryOldKeys`. -/
def oldBitgoPath (bitGoKeyIndex addressIndex : Nat) : String :=
  "m/" ++ toString bitGoKeyIndex ++ "/0/" ++ toString addressIndex
/-- The path set for all three keys by `tryNewKeys`. -/
def newPath (addressIndex : Nat) : String := "m/0/0/0/" ++ toString addressIndex

/-- The function `tryOldKeys`: the probes it issues, in order, and the value its promise
resolves with. -/
def tryOldKeys (s : Search) (bitGoKeyIndex addressIndex : Nat) :
    List Probe × Option WalletAddress :=
  let p0 := oldUserPath addressIndex
  let p1 := oldBackupPath addressIndex
  let p2 := oldBitgoPath bitGoKeyIndex addressIndex
  match tryPath s p0 p1 p2 with
  | some result => ([probeOf s p0 p1 p2], some result)
  | none =>
    if addressIndex + 1 ≥ MAX_ADDRESS_INDEX_TO_TRY then
      if bitGoKeyIndex + 1 ≥ MAX_BITGO_KEY_TO_TRY then
        ([probeOf s p0 p1 p2], none)
      else
        let rest := tryOldKeys s (bitGoKeyIndex + 1) 0
        (probeOf s p0 p1 p2 :: rest.1, rest.2)
    else
      let rest := tryOldKeys s bitGoKeyIndex (addressIndex + 1)
      (probeOf s p0 p1 p2 :: rest.1, rest.2)
termination_by (MAX_BITGO_KEY_TO_TRY - bitGoKeyIndex, MAX_ADDRESS_INDEX_TO_TRY - addressIndex)
decreasing_by
  all_goals simp_wf
  · left; simp only [MAX_BITGO_KEY_TO_TRY] at *; omega
  · right; simp only [MAX_ADDRESS_INDEX_TO_TRY] at *; omega

/-- The function `tryNewKeys`: the probes it issues, in order, and the value its promise
resolves with. -/
def tryNewKeys (s : Search) (addressIndex : Nat) : List Probe × Option WalletAddress :=
  let p := newPath addressIndex
  match tryPath s p p p with
  | some result => ([probeOf s p p p], some result)
  | none =>
    if addressIndex + 1 ≥ MAX_ADDRESS_INDEX_TO_TRY then
      ([probeOf s p p p], none)
    else
      let rest := tryNewKeys s (addressIndex + 1)
      (probeOf s p p p :: rest.1, rest.2)
termination_by MAX_ADDRESS_INDEX_TO_TRY - addressIndex
decreasing_by
  simp_wf
  simp only [MAX_ADDRESS_INDEX_TO_TRY] at *; omega

/-- How the promise returned by `findBaseAddress` ends. -/
inductive BaseAddressOutcome where
  /-- The call `findBaseAddressDeferred.resolve(address)`: the promise is resolved. -/
  | resolved (address : WalletAddress)
  /-- The statement `throw new Error(...)` in the callback of `tryOldKeys(...).then(...)`.  The
  promise that `then` derives is rejected with the error and discarded, so that no handler
  receives it, and `findBaseAddressDeferred` is neither resolved nor rejected: the promise
  returned by `findBaseAddress` stays pending and the `catch` of `run` is not reached. -/
  | neverSettled (thrown : RecoveryError)
deriving DecidableEq, Repr

/-- The function `findBaseAddress`: all probes in the order they are issued, and how the
returned promise ends, resolved with the address found or left pending when the old scheme
yields `null`. -/
def findBaseAddress (s : Search) : List Probe × BaseAddressOutcome :=
  let new := tryNewKeys s 0
  match new.2 with
  | some address => (new.1, .resolved address)
  | none =>
    let old := tryOldKeys s INITIAL_BITGO_KEY_TO_TRY 0
    match old.2 with
    | some address => (new.1 ++ old.1, .resolved address)
    | none => (new.1 ++ old.1, .neverSettled .couldNotFindAddress)

/-! ## `findSubAddresses` -/

/-- The node `key.deriveFromPath(path)` of a root key. -/
structure HDNode where
  root : String
  path : String
deriving DecidableEq, Repr

/-- One entry of `keys` in a sub-address record: `{ key: <derived node>, path: <path> }`. -/
structure SubKey where
  key : HDNode
  path : String
deriving DecidableEq, Repr

/-- The record stored in `subAddresses[subAddressString]` by `tryAddress`. -/
structure SubAddress where
  address : String
  keyIndex : Nat
  addressIndex : Nat
  keys : List SubKey
  redeemScript : Bytes
deriving DecidableEq, Repr

/-- The fields of `body.data` that `tryAddress` reads.  Of `balance` only the sign is
inspected (`body.data.balance > 0`). -/
structure AddressInfo where
  nb_txs : Nat
  balance : Int
deriving DecidableEq, Repr

/-- The inputs of `findSubAddresses`: the library, the base address found by
`findBaseAddress` and the oracle's answer for each address. -/
structure Scan where
  lib : Lib
  baseAddress : WalletAddress
  info : String → AddressInfo

def MAX_SEQUENTIAL_ADDRESSES_WITHOUT_TXS : Nat := 20

/-- The variables that change during `findSubAddresses`: the arguments of the pending call of
`tryAddress`, the counter, the global map `subAddresses` (in insertion order), the lines
'Trying keyIndex k addressIndex a' logged so far, and whether `deferred` is resolved. -/
structure ScanState where
  keyIndex : Nat
  addressIndex : Nat
  numSequentialAddressesWithoutTxs : Nat
  subAddresses : List (String × SubAddress)
  tried : List (Nat × Nat)
  resolved : Bool
deriving DecidableEq, Repr

/-- The expression `keyData.path + '/' + keyIndex + '/' + addressIndex`. -/
def subPath (base : String) (keyIndex addressIndex : Nat) : String :=
  base ++ "/" ++ toString keyIndex ++ "/" ++ toString addressIndex

/-- The list `pubKeys` that `tryAddress` builds from `baseAddress.keys`. -/
def subPubKeys (sc : Scan) (keyIndex addressIndex : Nat) : List Bytes :=
  sc.baseAddress.keys.map
    (fun keyData => sc.lib.deriveFromPath keyData.key (subPath keyData.path keyIndex addressIndex))

/-- The string `subAddressString` of `tryAddress`. -/
def subAddressString (sc : Scan) (keyIndex addressIndex : Nat) : String :=
  multisigAddress sc.lib (subPubKeys sc keyIndex addressIndex)

/-- The record that `tryAddress` stores for a funded address; `baseAddress.keys` has the
three entries built by `tryPath`. -/
def subAddressRecord (sc : Scan) (keyIndex addressIndex : Nat) : SubAddress :=
  { address := subAddressString sc keyIndex addressIndex,
    keyIndex := keyIndex,
    addressIndex := addressIndex,
    keys := sc.baseAddress.keys.map (fun keyData =>
      { key := { root := keyData.key, path := subPath keyData.path keyIndex addressIndex },
        path := subPath keyData.path keyIndex addressIndex }),
    redeemScript := sc.lib.multisigOutput 2 (subPubKeys sc keyIndex addressIndex) }

/-- Assignment `map[key] = value` on an object whose keys are kept in insertion order. -/
def assign {α : Type} (map : List (String × α)) (key : String) (value : α) :
    List (String × α) :=
  if map.any (fun e => e.1 == key) then
    map.map (fun e => if e.1 == key then (key, value) else e)
  else map ++ [(key, value)]

/-- One call `tryAddress(keyIndex, addressIndex)` together with the callback of its request:
the state in which the next call is made, or in which `deferred` is resolved. -/
def tryAddress (sc : Scan) (st : ScanState) : ScanState :=
  let keyIndex := st.keyIndex
  let addressIndex := st.addressIndex
  let address := subAddressString sc keyIndex addressIndex
  let tried := st.tried ++ [(keyIndex, addressIndex)]
  let data := sc.info address
  let count :=
    if data.nb_txs = 0 then st.numSequentialAddressesWithoutTxs + 1 else 0
  if data.balance > 0 then
    { keyIndex := keyIndex, addressIndex := addressIndex + 1,
      numSequentialAddressesWithoutTxs := count,
      subAddresses := assign st.subAddresses address (subAddressRecord sc keyIndex addressIndex),
      tried := tried, resolved := false }
  else if count ≥ MAX_SEQUENTIAL_ADDRESSES_WITHOUT_TXS then
    if keyIndex = 0 then
      { keyIndex := 1, addressIndex := 0, numSequentialAddressesWithoutTxs := 0,
        subAddresses := st.subAddresses, tried := tried, resolved := false }
    else
      { keyIndex := keyIndex, addressIndex := addressIndex,
        numSequentialAddressesWithoutTxs := count,
        subAddresses := st.subAddresses, tried := tried, resolved := true }
  else
    { keyIndex := keyIndex, addressIndex := addressIndex + 1,
      numSequentialAddressesWithoutTxs := count,
      subAddresses := st.subAddresses, tried := tried, resolved := false }

/-- The state in which `findSubAddresses` makes its first call `tryAddress(0, 0)`. -/
def scanStart : ScanState :=
  { keyIndex := 0, addressIndex := 0, numSequentialAddressesWithoutTxs := 0,
    subAddresses := [], tried := [], resolved := false }

/-- The chain of calls of `tryAddress`, cut after `fuel` calls: each call ends by making the
next one unless `deferred` was resolved. -/
def scanSteps (sc : Scan) : Nat → ScanState → ScanState
  | 0, st => st
  | fuel + 1, st => if st.resolved then st else scanSteps sc fuel (tryAddress sc st)

/-- The function `findSubAddresses` run for at most `fuel` calls of `tryAddress`: the map
`subAddresses` once `deferred` is resolved, and `none` while it is still pending. -/
def findSubAddresses (sc : Scan) (fuel : Nat) : Option (List (String × SubAddress)) :=
  let st := scanSteps sc fuel scanStart
  if st.resolved then some st.subAddresses else none

/-! ## JavaScript numbers -/

/-- The least `s` with `m < 2 ^ (53 + s)`, for `m < 2 ^ fuel`. -/
def excessBits : Nat → Nat → Nat
  | 0, _ => 0
  | fuel + 1, m => if m < 2 ^ 53 then 0 else excessBits fuel (m / 2) + 1

/-- Rounding of a natural number to 53 significant bits, to nearest with ties to even: the
rounding of binary64 arithmetic within its exponent range. -/
def roundToDouble (m : Nat) : Nat :=
  let s := excessBits m m
  let q := m / 2 ^ s
  let r := m % 2 ^ s
  if 2 * r < 2 ^ s ∨ (2 * r = 2 ^ s ∧ q % 2 = 0) then q * 2 ^ s else (q + 1) * 2 ^ s

/-- A non-negative finite JavaScript number, the dyadic rational `num / 2 ^ scale`.
Arithmetic on these values rounds as binary64 does; overflow and underflow are outside the
model. -/
structure Num where
  num : Nat
  scale : Nat
deriving DecidableEq, Repr

namespace Num

/-- The rational value of a number. -/
def toRat (x : Num) : ℚ := (x.num : ℚ) / 2 ^ x.scale

/-- A natural number below `2 ^ 53` as a JavaScript number. -/
def ofNat (n : Nat) : Num := { num := n, scale := 0 }

/-- The JavaScript `a * b`. -/
def mul (a b : Num) : Num :=
  { num := roundToDouble (a.num * b.num), scale := a.scale + b.scale }

/-- The JavaScript `a + b`. -/
def add (a b : Num) : Num :=
  { num := roundToDouble (a.num * 2 ^ b.scale + b.num * 2 ^ a.scale), scale := a.scale + b.scale }

/-- The JavaScript `a - b` for `b ≤ a`. -/
def sub (a b : Num) : Num :=
  { num := roundToDouble (a.num * 2 ^ b.scale - b.num * 2 ^ a.scale), scale := a.scale + b.scale }

/-- The JavaScript `a > b`. -/
def gt (a b : Num) : Bool :=
  decide (b.num * 2 ^ a.scale < a.num * 2 ^ b.scale)

/-- The literal `0.0001`: the binary64 number nearest to `1 / 10000`. -/
def lit0_0001 : Num := { num := 7378697629483821, scale := 66 }

/-- The literal `1e8`. -/
def lit1e8 : Num := { num := 100000000, scale := 0 }

end Num

/-! ## `findUnspents` -/

/-- One element of `unspentData.unspent` in the oracle's answer. -/
structure OracleUnspent where
  tx : String
  amount : Num
  n : Nat
  script : String
deriving DecidableEq, Repr

/-- The object `newUnspent` that `findUnspents` pushes onto `unspents`. -/
structure Unspent where
  keys : List SubKey
  redeemScript : Bytes
  transaction_hash : String
  value : Num
  output_index : Nat
  script_hex : String
deriving DecidableEq, Repr

/-- The state of `findUnspents` after some answers: the global list `unspents`, whether
`deferred` has been resolved (with `unspents`), and whether a callback has thrown because the
answer named an address that is not in `subAddresses`. -/
structure UnspentsState where
  unspents : List Unspent
  resolved : Bool
  thrown : Bool
deriving DecidableEq, Repr

/-- The body of the loop `for (var unspentIndex in unspentData.unspent)` for one answer. -/
def attachUnspents (subAddress : SubAddress) (addressCount : Nat) :
    List OracleUnspent → UnspentsState → UnspentsState
  | [], st => st
  | u :: rest, st =>
    let newUnspent : Unspent :=
      { keys := subAddress.keys,
        redeemScript := subAddress.redeemScript,
        transaction_hash := u.tx,
        value := Num.mul u.amount Num.lit1e8,
        output_index := u.n,
        script_hex := u.script }
    let unspents := st.unspents ++ [newUnspent]
    attachUnspents subAddress addressCount rest
      { unspents := unspents,
        resolved := st.resolved || decide (unspents.length = addressCount),
        thrown := st.thrown }

/-- The callback of one request of `findUnspents`, for the answer about `address`. -/
def unspentsCallback (subAddresses : List (String × SubAddress))
    (unspentsOf : String → List OracleUnspent) (st : UnspentsState) (address : String) :
    UnspentsState :=
  if st.thrown then st
  else
    match unspentsOf address, subAddresses.lookup address with
    | [], _ => st
    | _ :: _, none => { st with thrown := true }
    | us, some subAddress => attachUnspents subAddress subAddresses.length us st

/-- The function `findUnspents` on the map `subAddresses`, with the oracle's list of unspent
outputs for each address and the order in which the answers arrive: the error thrown for an
empty map, and otherwise the state once every answer of `arrival` has been handled. -/
def findUnspents (subAddresses : List (String × SubAddress))
    (unspentsOf : String → List OracleUnspent) (arrival : List String) :
    Except RecoveryError UnspentsState :=
  let addressList := subAddresses.map (fun e => e.1)
  if addressList.length = 0 then .error .couldNotFindUnspents
  else .ok (arrival.foldl (unspentsCallback subAddresses unspentsOf)
    { unspents := [], resolved := false, thrown := false })

/-! ## `createTransaction` -/

/-- One call `txb.sign(index, key.privKey, redeemScript)`: the input index, the node whose
private key is passed, and the redeem script. -/
structure SignCall where
  index : Nat
  key : HDNode
  redeemScript : Bytes
deriving DecidableEq, Repr

/-- The library behaviour `createTransaction` depends on.

* `inputAccepted unspent`: whether the body of the first loop returns for `unspent`, that is
  `new Buffer(unspent.transaction_hash, 'hex')`, `Script.fromHex(unspent.script_hex)` and
  `transaction.addInput(hash, index, sequence, script)`; the library throws otherwise, for
  instance when the hash is not 32 bytes long.
* `serializedLength unspents`: `transaction.toBuffer().length` once the inputs of `unspents`
  have been added.
* `outputAccepted unspents value`: whether `Address.fromBase58Check(inputs.destination)`,
  `transaction.addOutput(..., value)` and `TransactionBuilder.fromTransaction(transaction)`
  return.
* `redeemScriptAccepted unspent`: whether `Script.fromHex(unspent.redeemScript)` returns.
* `signSucceeds earlier call`: whether `txb.sign` returns (rather than throws) for `call`
  after the calls `earlier`.
* `buildSucceeds unspents calls`: whether `txb.build()` returns after the calls `calls`. -/
structure TxLib where
  inputAccepted : Unspent → Bool
  serializedLength : List Unspent → Nat
  outputAccepted : List Unspent → Num → Bool
  redeemScriptAccepted : Unspent → Bool
  signSucceeds : List SignCall → SignCall → Bool
  buildSucceeds : List Unspent → List SignCall → Bool

/-- The transaction handed to `txb.build()`: its inputs and the value of its one output. -/
structure BuiltTransaction where
  inputs : List Unspent
  outputValue : Num
deriving DecidableEq, Repr

/-- The value of `totalValue` after the loop that adds the inputs, starting from `acc`. -/
def sumValues : List Unspent → Num → Num
  | [], acc => acc
  | unspent :: rest, acc => sumValues rest (Num.add acc unspent.value)

/-- The variable `totalValue` when the fee is checked. -/
def totalValue (unspents : List Unspent) : Num :=
  sumValues unspents (Num.ofNat 0)

/-- The expression `transaction.toBuffer().length + (232 * unspents.length)` for a serialized
length `S` and `n` inputs; both are integers below `2 ^ 53`, on which the arithmetic of
JavaScript numbers is exact. -/
def approximateSize (S n : Nat) : Nat :=
  S + 232 * n

/-- The expression `((Math.floor(approximateSize / 1024)) + 1) * 0.0001 * 1e8`, evaluated
from left to right. -/
def approximateFee (approximateSize : Nat) : Num :=
  Num.mul (Num.mul (Num.ofNat (approximateSize / 1024 + 1)) Num.lit0_0001) Num.lit1e8

/-- The signing loop of `createTransaction` from input `index` on, after the calls `calls`:
all calls of `txb.sign` made, and the error that ends the loop if any: the error of
`Script.fromHex`, which is outside the `try` blocks, or the error of the first failing `try`
block.  A missing entry of `unspent.keys` raises a `TypeError` inside the `try` block. -/
def signInputs (tl : TxLib) : List Unspent → Nat → List SignCall →
    List SignCall × Option RecoveryError
  | [], _, calls => (calls, none)
  | unspent :: rest, index, calls =>
    if tl.redeemScriptAccepted unspent then
      match unspent.keys[0]? with
      | none => (calls, some .signatureFailureUserKey)
      | some userKey =>
        let userCall : SignCall :=
          { index := index, key := userKey.key, redeemScript := unspent.redeemScript }
        if tl.signSucceeds calls userCall then
          match unspent.keys[1]? with
          | none => (calls ++ [userCall], some .signatureFailureBackupKey)
          | some backupKey =>
            let backupCall : SignCall :=
              { index := index, key := backupKey.key, redeemScript := unspent.redeemScript }
            if tl.signSucceeds (calls ++ [userCall]) backupCall then
              signInputs tl rest (index + 1) (calls ++ [userCall, backupCall])
            else (calls ++ [userCall, backupCall], some .signatureFailureBackupKey)
        else (calls ++ [userCall], some .signatureFailureUserKey)
    else (calls, some .libraryError)

/-- The function `createTransaction` on the global list `unspents`: the calls of `txb.sign`
in order, and either the error thrown or the transaction that is built.  The first loop adds
the inputs and throws at the first one the library does not accept; then the fee is checked
against `totalValue`; then the output of value `totalValue - approximateFee` is added and the
builder is created; then the inputs are signed and the transaction is built. -/
def createTransaction (tl : TxLib) (unspents : List Unspent) :
    List SignCall × Except RecoveryError BuiltTransaction :=
  if unspents.all tl.inputAccepted then
    let total := totalValue unspents
    let size := approximateSize (tl.serializedLength unspents) unspents.length
    let fee := approximateFee size
    if Num.gt fee total then ([], .error .insufficientFunds)
    else
      let output := Num.sub total fee
      if tl.outputAccepted unspents output then
        let signed := signInputs tl unspents 0 []
        match signed.2 with
        | some e => (signed.1, .error e)
        | none =>
          if tl.buildSucceeds unspents signed.1 then
            (signed.1, .ok { inputs := unspents, outputValue := output })
          else (signed.1, .error .libraryError)
      else ([], .error .libraryError)
  else ([], .error .libraryError)

/-! ## Example data

A small library instance and small inputs on which the definitions above are evaluated. -/

/-- A sub-address key set as `tryAddress` records it for the base paths `m/0/0` at chain
`keyIndex` and index `addressIndex`. -/
def exampleKeys (keyIndex addressIndex : Nat) : List SubKey :=
  ["xprv-user", "xprv-backup", "xpub-bitgo"].map (fun root =>
    { key := { root := root, path := subPath "m/0/0" keyIndex addressIndex },
      path := subPath "m/0/0" keyIndex addressIndex })

/-- An unspent output of value `value` at chain 0, index `addressIndex`, with a transaction
hash of 32 bytes and a pay-to-script-hash output script of 23 bytes. -/
def exampleUnspentOf (addressIndex : Nat) (value : Num) : Unspent :=
  { keys := exampleKeys 0 addressIndex,
    redeemScript := [0x52, 0x53, 0xae],
    transaction_hash := "e3b0c44298fc1c149afbf4c8996fb92427ae41e4649b934ca495991b7852b855",
    value := value,
    output_index := 0,
    script_hex := "a914000000000000000000000000000000000000000087" }

/-- An unspent output of `value` satoshi, a whole number, at chain 0, index
`addressIndex`. -/
def exampleUnspent (addressIndex value : Nat) : Unspent :=
  exampleUnspentOf addressIndex (Num.ofNat value)

/-- The number `2.9999999999999996`, that is `3 - 2 ^ -51`. -/
def lit2_9999999999999996 : Num := { num := 6755399441055743, scale := 51 }

/-- Whether a string is made of hexadecimal digits only. -/
def isHex (s : String) : Bool :=
  s.data.all (fun c => c.isDigit || (decide ('a' ≤ c) && decide (c ≤ 'f')))

/-- A transaction library that accepts an input when its hash is 32 bytes in hexadecimal
and its script is hexadecimal, whose serialization takes 10 bytes plus 41 bytes and the script
per input, which accepts every output, whose signing calls all succeed, and which builds the
transaction when two calls per input were made. -/
def exampleTxLib : TxLib :=
  { inputAccepted := fun unspent =>
      decide (unspent.transaction_hash.length = 64) && isHex unspent.transaction_hash &&
        isHex unspent.script_hex,
    serializedLength := fun unspents =>
      10 + (unspents.map (fun unspent => 41 + unspent.script_hex.length / 2)).sum,
    outputAccepted := fun _ _ => true,
    redeemScriptAccepted := fun _ => true,
    signSucceeds := fun _ _ => true,
    buildSucceeds := fun unspents calls => decide (calls.length = 2 * unspents.length) }

/-- A transaction library like `exampleTxLib` whose signing calls all fail. -/
def failingTxLib : TxLib :=
  { exampleTxLib with signSucceeds := fun _ _ => false }

/-- Whether every call of a list of signing calls, made after the calls `earlier`,
returned. -/
def allReturned (tl : TxLib) : List SignCall → List SignCall → Bool
  | _, [] => true
  | earlier, call :: rest =>
    tl.signSucceeds earlier call && allReturned tl (earlier ++ [call]) rest

/-- A library instance with injective stand-ins for the hash functions and the address
encoding: public keys are the bytes of the key and path, scripts follow the Bitcoin script
encoding, the two hashes are the identity and an address is its script read as text. -/
def exampleLib : Lib :=
  { deriveFromPath := fun key path => (key ++ ":" ++ path).data.map Char.toNat,
    multisigOutput := fun m pubKeys =>
      [0x50 + m] ++ pubKeys.flatMap (fun k => k.length :: k) ++ [0x50 + pubKeys.length, 0xae],
    sha256 := id,
    ripemd160 := id,
    scriptHashOutput := fun hash => [0xa9, hash.length] ++ hash ++ [0x87],
    addressFromOutputScript := fun script => String.mk (script.map Char.ofNat) }

/-- A base address as `tryPath` returns it for the new scheme. -/
def exampleBaseAddress : WalletAddress :=
  { address := "base",
    keys := [ { key := "xprv-user", path := "m/0/0" },
              { key := "xprv-backup", path := "m/0/0" },
              { key := "xpub-bitgo", path := "m/0/0" } ] }

/-- A scan in which no address has any transaction. -/
def unusedScan : Scan :=
  { lib := exampleLib, baseAddress := exampleBaseAddress, info := fun _ => ⟨0, 0⟩ }

/-- A scan in which no address has any transaction counted, and the address at chain 0,
index 19 holds a balance of 1. -/
def fundedUnusedScan : Scan :=
  { lib := exampleLib, baseAddress := exampleBaseAddress,
    info := fun address =>
      if address = subAddressString unusedScan 0 19 then ⟨0, 1⟩ else ⟨0, 0⟩ }

/-- A scan in which the addresses at chain 0, indices 0 to 5 have one transaction each and
no balance, and no other address has any transaction. -/
def gapScan : Scan :=
  { lib := exampleLib, baseAddress := exampleBaseAddress,
    info := fun address =>
      if (List.range 6).any (fun i => address == subAddressString unusedScan 0 i) then ⟨1, 0⟩
      else ⟨0, 0⟩ }

/-- The state of a scan that has just left chain 0 after `t` probes, all of them on chain 0
at the indices `0` to `t - 1`: the next call is `tryAddress(1, 0)` with the counter at 0. -/
def SwitchedAfter (sc : Scan) (t : Nat) : Prop :=
  (scanSteps sc t scanStart).keyIndex = 1 ∧
  (scanSteps sc t scanStart).addressIndex = 0 ∧
  (scanSteps sc t scanStart).numSequentialAddressesWithoutTxs = 0 ∧
  (scanSteps sc t scanStart).resolved = false ∧
  (scanSteps sc t scanStart).tried = (List.range t).map (fun i => (0, i))

/-- One combination of paths for the user, backup and bitgo keys. -/
structure Candidate where
  user : String
  backup : String
  bitgo : String
deriving DecidableEq, Repr

/-- The new-scheme combination for address index `i`: all three keys at `m/0/0/0/i`. -/
def newCandidate (i : Nat) : Candidate :=
  { user := "m/0/0/0/" ++ toString i, backup := "m/0/0/0/" ++ toString i,
    bitgo := "m/0/0/0/" ++ toString i }

/-- The legacy-scheme combination for `(bitgoKeyIndex, addressIndex) = (k, a)`: user path
`m/100'/101/0/a`, backup path `m/101/0/a`, bitgo path `m/k/0/a`. -/
def legacyCandidate (ka : Nat × Nat) : Candidate :=
  { user := "m/100'/101/0/" ++ toString ka.2, backup := "m/101/0/" ++ toString ka.2,
    bitgo := "m/" ++ toString ka.1 ++ "/0/" ++ toString ka.2 }

/-- The new-scheme address indices in increasing order. -/
def newIndices : List Nat := [0, 1, 2]

/-- The pairs `(bitgoKeyIndex, addressIndex)` with `bitgoKeyIndex` in `101..119` and
`addressIndex` in `0..2`, in lexicographic order. -/
def legacyIndices : List (Nat × Nat) :=
  (List.range' 101 19).flatMap (fun k => (List.range' 0 3).map (fun a => (k, a)))

/-- The legacy pairs from `(k, a)` on, in lexicographic order. -/
def legacyIndicesFrom (k a : Nat) : List (Nat × Nat) :=
  (List.range' a (3 - a)).map (fun a' => (k, a')) ++
    (List.range' (k + 1) (119 - k)).flatMap (fun k' => (List.range' 0 3).map (fun a' => (k', a')))

/-- The probe of a combination. -/
def Candidate.probe (s : Search) (c : Candidate) : Probe :=
  probeOf s c.user c.backup c.bitgo

/-- Whether the address of a combination has transaction history. -/
def Candidate.hasHistory (s : Search) (c : Candidate) : Bool :=
  decide (0 < s.nb_txs (pathAddress s c.user c.backup c.bitgo))

/-- The wallet address reported for a combination: its address, and each key with its path
cut by `substring`. -/
def Candidate.result (s : Search) (c : Candidate) : WalletAddress :=
  { address := pathAddress s c.user c.backup c.bitgo,
    keys := [ { key := s.userKey, path := basePath c.user },
              { key := s.backupKey, path := basePath c.backup },
              { key := s.bitgoKey, path := basePath c.bitgo } ] }

/-- Probing a list of combinations in order, up to and including the first one whose address
has history. -/
def probeInOrder (s : Search) : List Candidate → List Probe × Option WalletAddress
  | [] => ([], none)
  | c :: rest =>
    if c.hasHistory s then ([c.probe s], some (c.result s))
    else ((c.probe s) :: (probeInOrder s rest).1, (probeInOrder s rest).2)

/-- The three new-scheme combinations in probing order. -/
def newCandidates : List Candidate := newIndices.map newCandidate

/-- The 57 legacy-scheme combinations in lexicographic order of
`(bitgoKeyIndex, addressIndex)`. -/
def legacyCandidates : List Candidate := legacyIndices.map legacyCandidate

/-- The keys of the example searches. -/
def exampleSearch (nb_txs : String → Nat) : Search :=
  { lib := exampleLib, userKey := "xprv-user", backupKey := "xprv-backup",
    bitgoKey := "xpub-bitgo", nb_txs := nb_txs }

/-- A search in which only the new-scheme addresses at the indices 1 and 2 have history. -/
def newWalletSearch : Search :=
  exampleSearch (fun address =>
    if address = ((newCandidate 1).probe (exampleSearch (fun _ => 0))).address
      ∨ address = ((newCandidate 2).probe (exampleSearch (fun _ => 0))).address then 1 else 0)

/-- A search in which only the legacy addresses for `(102, 1)` and `(103, 0)` have
history. -/
def legacyWalletSearch : Search :=
  exampleSearch (fun address =>
    if address = ((legacyCandidate (102, 1)).probe (exampleSearch (fun _ => 0))).address
      ∨ address = ((legacyCandidate (103, 0)).probe (exampleSearch (fun _ => 0))).address
    then 1 else 0)

/-- A search in which no address has history. -/
def unusedSearch : Search := exampleSearch (fun _ => 0)

/-- The components of a path between its `/` separators. -/
def splitSlash : List Char → List (List Char)
  | [] => [[]]
  | c :: cs =>
    match splitSlash cs with
    | [] => [[c]]
    | x :: xs => if c = '/' then [] :: x :: xs else (c :: x) :: xs

/-- A path with its final two `/`-separated components removed. -/
def dropLastTwoComponents (path : String) : String :=
  String.mk (List.intercalate ['/'] ((splitSlash path.data).dropLast.dropLast))

/-- The signing calls the specification asks for, from input `index` on: for each input in
order one call with its user key `keys[0]` and then one with its backup key `keys[1]`, each
against the redeem script of that input. -/
def expectedSignCalls : List Unspent → Nat → List SignCall
  | [], _ => []
  | unspent :: rest, index =>
    (unspent.keys.take 2).map
        (fun k => { index := index, key := k.key, redeemScript := unspent.redeemScript }) ++
      expectedSignCalls rest (index + 1)

/-- A map `subAddresses` with one funded sub-address, at chain 0 and index 3. -/
def exampleSubAddresses : List (String × SubAddress) :=
  [(subAddressString unusedScan 0 3, subAddressRecord unusedScan 0 3)]

/-- Three public keys of one byte each. -/
def examplePubKeys : List Bytes := [[1], [2], [3]]

/-- The fee as the specification states it: `ceil(approximateSize / 1024) * 10000` satoshi
for a serialized length `S` and `n` inputs. -/
def ceilFee (S n : Nat) : ℚ :=
  (⌈((S + 232 * n : ℕ) : ℚ) / 1024⌉₊ : ℚ) * 10000

/-- The fee for `floor(approximateSize / 1024) + 1` started kilobytes at `10000` satoshi
each. -/
def floorFee (S n : Nat) : ℚ :=
  (((S + 232 * n) / 1024 + 1 : ℕ) : ℚ) * 10000

/-- A scan in which no address has any transaction counted and every address holds a balance
of 1. -/
def allFundedScan : Scan :=
  { lib := exampleLib, baseAddress := exampleBaseAddress, info := fun _ => ⟨0, 1⟩ }

/-- The pairs `(chain, index)` of the chains 0 and 1 whose address has a nonzero transaction
count. -/
def usedAddresses (sc : Scan) : Set (Nat × Nat) :=
  {p | p.1 ≤ 1 ∧ (sc.info (subAddressString sc p.1 p.2)).nb_txs ≠ 0}

/-- The pairs `(chain, index)` of the chains 0 and 1 whose address has a positive balance. -/
def fundedAddresses (sc : Scan) : Set (Nat × Nat) :=
  {p | p.1 ≤ 1 ∧ 0 < (sc.info (subAddressString sc p.1 p.2)).balance}

/-! # Theorems -/

/-! ## Rounding -/

/-- With enough fuel `excessBits` gives the number of bits beyond 53 of its argument. -/
theorem excessBits_spec (fuel : Nat) : ∀ m : Nat, m < 2 ^ fuel →
    m < 2 ^ (53 + excessBits fuel m) ∧
      (0 < excessBits fuel m → 2 ^ (52 + excessBits fuel m) ≤ m) := by
  induction fuel with
  | zero =>
    intro m hm
    simp only [excessBits]
    constructor
    · have : m = 0 := by simpa using hm
      subst this; positivity
    · intro h; omega
  | succ fuel ih =>
    intro m hm
    by_cases h53 : m < 2 ^ 53
    · simp only [excessBits, h53, if_true]
      exact ⟨by simp [h53], fun h => by omega⟩
    · simp only [excessBits, h53, if_false]
      have hhalf : m / 2 < 2 ^ fuel := by
        rw [Nat.div_lt_iff_lt_mul (by norm_num)]
        rw [pow_succ] at hm; exact hm
      obtain ⟨h1, h2⟩ := ih (m / 2) hhalf
      constructor
      · have : 2 ^ (53 + (excessBits fuel (m / 2) + 1))
            = 2 ^ (53 + excessBits fuel (m / 2)) * 2 := by
          rw [← Nat.add_assoc, pow_succ]
        rw [this]
        omega
      · intro _
        by_cases h0 : 0 < excessBits fuel (m / 2)
        · have h3 := h2 h0
          have : 2 ^ (52 + (excessBits fuel (m / 2) + 1))
              = 2 ^ (52 + excessBits fuel (m / 2)) * 2 := by
            rw [← Nat.add_assoc, pow_succ]
          rw [this]
          omega
        · have h0 : excessBits fuel (m / 2) = 0 := by omega
          rw [h0]
          have : ¬ m < 2 ^ 53 := h53
          simpa using this

/-- Rounding to 53 significant bits changes a number by at most the fraction `2 ^ -53` of
it. -/
theorem roundToDouble_bounds (m : Nat) :
    roundToDouble m * 2 ^ 53 ≤ m * (2 ^ 53 + 1) ∧
      m * (2 ^ 53 - 1) ≤ roundToDouble m * 2 ^ 53 := by
  obtain ⟨h1, h2⟩ := excessBits_spec m m (Nat.lt_two_pow m)
  have hdm := Nat.div_add_mod m (2 ^ excessBits m m)
  have hr : m % 2 ^ excessBits m m < 2 ^ excessBits m m := Nat.mod_lt _ (by positivity)
  simp only [roundToDouble]
  generalize excessBits m m = s at h1 h2 hdm hr ⊢
  generalize m / 2 ^ s = q at hdm ⊢
  generalize m % 2 ^ s = r at hdm hr ⊢
  have hpos : 0 < 2 ^ s := by positivity
  rcases Nat.eq_zero_or_pos s with hs | hs
  · subst hs
    simp only [pow_zero] at hr hdm ⊢
    have hr0 : r = 0 := by omega
    subst hr0
    simp only [Nat.mul_zero, Nat.lt_one_iff, true_or, if_true, Nat.mul_one]
    constructor <;> omega
  · have h3 := h2 hs
    have hsplit : 2 ^ (52 + s) = 2 ^ 52 * 2 ^ s := by rw [pow_add]
    rw [hsplit] at h3
    clear h1 h2 hsplit
    generalize 2 ^ s = P at *
    split_ifs with hc
    · have hle : 2 * r ≤ P := by rcases hc with h | h <;> omega
      have hcomm : q * P = P * q := Nat.mul_comm q P
      rw [hcomm]
      norm_num at h3 ⊢
      constructor <;> omega
    · have hge : P ≤ 2 * r := by
        by_contra hlt
        exact hc (Or.inl (by omega))
      have hcomm : (q + 1) * P = P * q + P := by ring
      rw [hcomm]
      norm_num at h3 ⊢
      constructor <;> omega

/-- A natural number below `2 ^ 53` is a binary64 number: rounding leaves it unchanged. -/
theorem roundToDouble_of_lt (m : Nat) (h : m < 2 ^ 53) : roundToDouble m = m := by
  have h0 : excessBits m m = 0 := by
    cases m with
    | zero => rfl
    | succ k => simp only [excessBits, h, if_true]
  simp [roundToDouble, h0, Nat.mod_one]

/-- The literal `0.0001` denotes the binary64 number nearest to one ten-thousandth: the
significand has 53 bits and the error is below half a unit in the last place. -/
theorem lit0_0001_nearest :
    2 ^ 52 ≤ Num.lit0_0001.num ∧ Num.lit0_0001.num < 2 ^ 53 ∧
      |Num.lit0_0001.toRat - 1 / 10000| < (1 / 2) / 2 ^ 66 := by
  refine ⟨by decide, by decide, ?_⟩
  norm_num [Num.lit0_0001, Num.toRat, abs_lt]

/-- The comparison `a > b` of JavaScript numbers is the comparison of their values. -/
theorem Num.gt_iff (a b : Num) : Num.gt a b = true ↔ b.toRat < a.toRat := by
  unfold Num.gt Num.toRat
  rw [decide_eq_true_iff, div_lt_div_iff₀ (by positivity) (by positivity)]
  exact_mod_cast Iff.rfl

/-! ## The fee of `createTransaction` -/

/-- The two roundings of `approximateFee` keep the fee within the fraction `2 ^ -51` of
`10000` satoshi per started kilobyte (in units of `2 ^ -66` satoshi). -/
theorem approximateFee_num_bounds (size : Nat) :
    (approximateFee size).scale = 66 ∧
    (approximateFee size).num * 2 ^ 51 ≤ ((size / 1024 + 1) * 10000 * 2 ^ 66) * (2 ^ 51 + 1) ∧
    ((size / 1024 + 1) * 10000 * 2 ^ 66) * (2 ^ 51 - 1) ≤ (approximateFee size).num * 2 ^ 51 := by
  have hnum : (approximateFee size).num
      = roundToDouble (roundToDouble ((size / 1024 + 1) * 7378697629483821) * 100000000) := rfl
  have hscale : (approximateFee size).scale = 66 := rfl
  rw [hnum, hscale]
  obtain ⟨a1, a2⟩ := roundToDouble_bounds ((size / 1024 + 1) * 7378697629483821)
  generalize roundToDouble ((size / 1024 + 1) * 7378697629483821) = p at a1 a2 ⊢
  obtain ⟨b1, b2⟩ := roundToDouble_bounds (p * 100000000)
  generalize roundToDouble (p * 100000000) = q at b1 b2 ⊢
  generalize size / 1024 + 1 = k at a1 a2 ⊢
  norm_num at a1 a2 b1 b2 ⊢
  refine ⟨?_, ?_⟩ <;> omega

/-- The fee is exactly `10000` satoshi per started kilobyte for one and for two started
kilobytes. -/
theorem approximateFee_small (size : Nat) (h : size < 2048) :
    (approximateFee size).toRat = ((size / 1024 + 1 : ℕ) : ℚ) * 10000 := by
  have hk : size / 1024 = 0 ∨ size / 1024 = 1 := by omega
  unfold approximateFee
  rcases hk with hk | hk <;> rw [hk]
  · have : Num.mul (Num.mul (Num.ofNat (0 + 1)) Num.lit0_0001) Num.lit1e8
        = ⟨10000 * 2 ^ 66, 66⟩ := by decide
    rw [this]; norm_num [Num.toRat]
  · have : Num.mul (Num.mul (Num.ofNat (1 + 1)) Num.lit0_0001) Num.lit1e8
        = ⟨20000 * 2 ^ 66, 66⟩ := by decide
    rw [this]; norm_num [Num.toRat]

/-- The product is not exact for three started kilobytes: the fee for 2048 bytes is
`30000 + 2 ^ -38` satoshi. -/
theorem approximateFee_2048 :
    (approximateFee 2048).toRat = 30000 + 1 / 2 ^ 38 := by
  have : approximateFee 2048 = ⟨30000 * 2 ^ 66 + 2 ^ 28, 66⟩ := by decide
  rw [this]; norm_num [Num.toRat]

/-- Claim C1, refuted as stated: for a serialized length of 792 bytes and one input the
approximate size is 1024 bytes; the code charges 20000 satoshi, the ceiling formula gives
10000 satoshi. -/
theorem ceilFee_counterexample :
    approximateSize 792 1 = 1024 ∧
    (approximateFee (approximateSize 792 1)).toRat = 20000 ∧
    ceilFee 792 1 = 10000 ∧
    (approximateFee (approximateSize 792 1)).toRat ≠ ceilFee 792 1 := by
  have h : approximateFee (approximateSize 792 1) = ⟨20000 * 2 ^ 66, 66⟩ := by decide
  have hc : ceilFee 792 1 = 10000 := by norm_num [ceilFee]
  refine ⟨rfl, ?_, hc, ?_⟩
  · rw [h]; norm_num [Num.toRat]
  · rw [h, hc]; norm_num [Num.toRat]

/-- Claim C1, amended: for every serialized length `S` and input count `n` the fee is
`(floor((S + 232 * n) / 1024) + 1) * 10000` satoshi up to the rounding of the two
multiplications, which is at most the fraction `2 ^ -51` of it, and exactly that amount for
approximate sizes below 2048 bytes; for `S = 300` and `n = 2` the approximate size is 764 and
the fee is 10000 satoshi. -/
theorem approximateFee_floor_succ (S n : Nat) :
    |(approximateFee (approximateSize S n)).toRat - floorFee S n| * 2 ^ 51 ≤ floorFee S n ∧
    (approximateSize S n < 2048 →
      (approximateFee (approximateSize S n)).toRat = floorFee S n) ∧
    approximateSize 300 2 = 764 ∧ (approximateFee (approximateSize 300 2)).toRat = 10000 := by
  refine ⟨?_, fun h => approximateFee_small _ h, rfl, ?_⟩
  · obtain ⟨hs, h1, h2⟩ := approximateFee_num_bounds (approximateSize S n)
    have e : (approximateFee (approximateSize S n)).toRat
        = ((approximateFee (approximateSize S n)).num : ℚ) / 2 ^ 66 := by
      rw [Num.toRat, hs]
    have hf : floorFee S n = (((approximateSize S n / 1024 + 1) * 10000 : ℕ) : ℚ) := by
      simp [floorFee, approximateSize]
    rw [e, hf]
    generalize (approximateFee (approximateSize S n)).num = q at h1 h2 ⊢
    generalize (approximateSize S n / 1024 + 1) * 10000 = K at h1 h2 ⊢
    have h1q : (q : ℚ) * 2 ^ 51 ≤ ((K : ℚ) * 2 ^ 66) * (2 ^ 51 + 1) := by exact_mod_cast h1
    have h2q : ((K : ℚ) * 2 ^ 66) * (2 ^ 51 - 1) ≤ (q : ℚ) * 2 ^ 51 := by
      have : ((2 ^ 51 - 1 : ℕ) : ℚ) = 2 ^ 51 - 1 := by norm_num
      rw [← this]; exact_mod_cast h2
    have habs : |(q : ℚ) / 2 ^ 66 - K| ≤ (K : ℚ) / 2 ^ 51 := by
      rw [abs_le]
      constructor
      · rw [le_sub_iff_add_le, le_div_iff₀ (by positivity)]
        rw [div_eq_mul_inv]
        nlinarith [h2q]
      · rw [sub_le_iff_le_add, div_le_iff₀ (by positivity)]
        rw [div_eq_mul_inv]
        nlinarith [h1q]
    calc |(q : ℚ) / 2 ^ 66 - K| * 2 ^ 51 ≤ (K : ℚ) / 2 ^ 51 * 2 ^ 51 :=
          mul_le_mul_of_nonneg_right habs (by positivity)
      _ = K := by field_simp
  · have h : approximateFee (approximateSize 300 2) = ⟨10000 * 2 ^ 66, 66⟩ := by decide
    rw [h]; norm_num [Num.toRat]

/-- The amended fee formula at a serialized length of 792 bytes with one input: the fee for
the approximate size of 1024 bytes is exactly 20000 satoshi. -/
theorem approximateFee_floor_succ_witness :
    approximateSize 792 1 < 2048 ∧
      (approximateFee (approximateSize 792 1)).toRat = floorFee 792 1 :=
  ⟨by decide, (approximateFee_floor_succ 792 1).2.1 (by decide)⟩

/-! ## The fee check of `createTransaction` -/

/-- The signing loop never reports the insufficient-funds error. -/
theorem signInputs_error (tl : TxLib) (unspents : List Unspent) :
    ∀ (index : Nat) (calls : List SignCall),
      (signInputs tl unspents index calls).2 ≠ some .insufficientFunds := by
  induction unspents with
  | nil => intro index calls h; simp [signInputs] at h
  | cons unspent rest ih =>
    intro index calls h
    unfold signInputs at h
    simp only [] at h
    repeat' split at h
    all_goals first
      | exact ih _ _ h
      | (simp only [Option.some.injEq] at h; cases h)

/-- A number with at most 53 significant bits, scaled by a power of two, is a binary64
number: rounding leaves it unchanged. -/
theorem roundToDouble_mul_pow (m e : Nat) (h : m < 2 ^ 53) :
    roundToDouble (m * 2 ^ e) = m * 2 ^ e := by
  obtain ⟨_, h2⟩ := excessBits_spec (m * 2 ^ e) (m * 2 ^ e) (Nat.lt_two_pow _)
  simp only [roundToDouble]
  generalize excessBits (m * 2 ^ e) (m * 2 ^ e) = s at h2 ⊢
  rcases Nat.eq_zero_or_pos s with hs | hs
  · subst hs; simp [Nat.mod_one]
  · have h3 := h2 hs
    have hlt : 2 ^ (52 + s) < 2 ^ (53 + e) :=
      lt_of_le_of_lt h3 (by
        rw [pow_add 2 53 e]; exact Nat.mul_lt_mul_of_pos_right h (by positivity))
    have hse : 52 + s < 53 + e := (Nat.pow_lt_pow_iff_right (by norm_num)).mp hlt
    obtain ⟨d, rfl⟩ : ∃ d, e = s + d := ⟨e - s, by omega⟩
    have hM : m * 2 ^ (s + d) = (m * 2 ^ d) * 2 ^ s := by rw [pow_add]; ring
    rw [hM, Nat.mul_mod_left, Nat.mul_div_cancel _ (by positivity)]
    simp

/-- The numerator of a number whose value is the natural number `n`. -/
theorem Num.num_of_toRat_eq (a : Num) (n : Nat) (h : a.toRat = n) :
    a.num = n * 2 ^ a.scale := by
  unfold Num.toRat at h
  rw [div_eq_iff (by positivity)] at h
  exact_mod_cast h

/-- The value of a number is not negative. -/
theorem Num.toRat_nonneg (a : Num) : 0 ≤ a.toRat := by
  unfold Num.toRat; positivity

/-- The addition of two whole numbers whose sum is below `2 ^ 53` is exact. -/
theorem Num.add_whole (a b : Num) (m n : Nat) (ha : a.toRat = m) (hb : b.toRat = n)
    (h : m + n < 2 ^ 53) : (Num.add a b).toRat = ((m + n : ℕ) : ℚ) := by
  have e : a.num * 2 ^ b.scale + b.num * 2 ^ a.scale = (m + n) * 2 ^ (a.scale + b.scale) := by
    rw [Num.num_of_toRat_eq a m ha, Num.num_of_toRat_eq b n hb, pow_add]; ring
  simp only [Num.add, Num.toRat, e, roundToDouble_mul_pow _ _ h]
  push_cast
  field_simp

/-- When the two values are equal the subtraction gives 0. -/
theorem Num.sub_eq_zero (a b : Num) (h : a.toRat = b.toRat) : (Num.sub a b).toRat = 0 := by
  have e : a.num * 2 ^ b.scale = b.num * 2 ^ a.scale := by
    unfold Num.toRat at h
    rw [div_eq_div_iff (by positivity) (by positivity)] at h
    exact_mod_cast h
  have z : roundToDouble 0 = 0 := by decide
  simp [Num.sub, Num.toRat, e, z]

/-- On whole amounts whose sum stays below `2 ^ 53` the additions of `totalValue` are
exact. -/
theorem sumValues_exact (unspents : List Unspent) :
    ∀ (acc : Num) (m : Nat), acc.toRat = m →
      (∀ u ∈ unspents, ∃ n : ℕ, u.value.toRat = n) →
      (m : ℚ) + (unspents.map (fun u => u.value.toRat)).sum < 2 ^ 53 →
      (sumValues unspents acc).toRat = m + (unspents.map (fun u => u.value.toRat)).sum := by
  induction unspents with
  | nil => intro acc m ha _ _; simp [sumValues, ha]
  | cons u rest ih =>
    intro acc m ha hs hlt
    obtain ⟨n, hn⟩ := hs u (List.mem_cons_self _ _)
    simp only [List.map_cons, List.sum_cons] at hlt ⊢
    have hrest : 0 ≤ (rest.map (fun u => u.value.toRat)).sum :=
      List.sum_nonneg (by
        intro x hx
        obtain ⟨v, _, rfl⟩ := List.mem_map.mp hx
        exact Num.toRat_nonneg _)
    have hmn : m + n < 2 ^ 53 := by
      have : ((m + n : ℕ) : ℚ) < 2 ^ 53 := by push_cast; rw [← hn]; linarith
      exact_mod_cast this
    have hadd := Num.add_whole acc u.value m n ha hn hmn
    rw [sumValues, ih (Num.add acc u.value) (m + n) hadd
      (fun v hv => hs v (List.mem_cons_of_mem _ hv)) (by push_cast; rw [← hn]; linarith)]
    push_cast
    rw [hn]; ring

/-- Claim C2, refuted as stated, at two lists of unspents that the library accepts.  With one
unspent output of 10000 satoshi the fee is 10000 satoshi, so that the fee is greater than or
equal to the total input value, and `createTransaction` does not fail: it signs the input and
builds a transaction whose output value is 0.  With two unspent outputs of
`2.9999999999999996` and `9997` satoshi the fee of 10000 satoshi is greater than the sum of
the input values, and `createTransaction` does not fail either, because the running total
rounds to 10000. -/
theorem insufficientFunds_counterexample :
    ([exampleUnspent 3 10000].map (fun u => u.value.toRat)).sum = 10000 ∧
    (approximateFee (approximateSize (exampleTxLib.serializedLength [exampleUnspent 3 10000])
      [exampleUnspent 3 10000].length)).toRat = 10000 ∧
    (createTransaction exampleTxLib [exampleUnspent 3 10000]).2
      = .ok { inputs := [exampleUnspent 3 10000], outputValue := ⟨0, 66⟩ } ∧
    (createTransaction exampleTxLib [exampleUnspent 3 10000]).2
      ≠ .error .insufficientFunds ∧
    ([exampleUnspentOf 3 lit2_9999999999999996, exampleUnspent 4 9997].map
      (fun u => u.value.toRat)).sum = 10000 - 1 / 2 ^ 51 ∧
    (approximateFee (approximateSize
      (exampleTxLib.serializedLength
        [exampleUnspentOf 3 lit2_9999999999999996, exampleUnspent 4 9997])
      [exampleUnspentOf 3 lit2_9999999999999996, exampleUnspent 4 9997].length)).toRat
      = 10000 ∧
    (totalValue [exampleUnspentOf 3 lit2_9999999999999996, exampleUnspent 4 9997]).toRat
      = 10000 ∧
    (createTransaction exampleTxLib
      [exampleUnspentOf 3 lit2_9999999999999996, exampleUnspent 4 9997]).2
      ≠ .error .insufficientFunds := by
  have hfee : approximateFee (approximateSize (exampleTxLib.serializedLength
      [exampleUnspent 3 10000]) [exampleUnspent 3 10000].length) = ⟨10000 * 2 ^ 66, 66⟩ := by
    decide
  have hrun : (createTransaction exampleTxLib [exampleUnspent 3 10000]).2
      = .ok { inputs := [exampleUnspent 3 10000], outputValue := ⟨0, 66⟩ } := by
    rfl
  have hfee2 : approximateFee (approximateSize (exampleTxLib.serializedLength
      [exampleUnspentOf 3 lit2_9999999999999996, exampleUnspent 4 9997])
      [exampleUnspentOf 3 lit2_9999999999999996, exampleUnspent 4 9997].length)
      = ⟨10000 * 2 ^ 66, 66⟩ := by
    decide
  have htotal2 : totalValue [exampleUnspentOf 3 lit2_9999999999999996, exampleUnspent 4 9997]
      = ⟨10000 * 2 ^ 51, 51⟩ := by
    decide
  have hrun2 : (createTransaction exampleTxLib
      [exampleUnspentOf 3 lit2_9999999999999996, exampleUnspent 4 9997]).2
      = .ok { inputs := [exampleUnspentOf 3 lit2_9999999999999996, exampleUnspent 4 9997],
              outputValue := ⟨0, 117⟩ } := by
    rfl
  refine ⟨?_, ?_, hrun, ?_, ?_, ?_, ?_, ?_⟩
  · norm_num [exampleUnspent, exampleUnspentOf, Num.toRat, Num.ofNat]
  · rw [hfee]; norm_num [Num.toRat]
  · rw [hrun]; simp
  · norm_num [exampleUnspent, exampleUnspentOf, lit2_9999999999999996, Num.toRat, Num.ofNat]
  · rw [hfee2]; norm_num [Num.toRat]
  · rw [htotal2]; norm_num [Num.toRat]
  · rw [hrun2]; simp

/-- The outcome of `createTransaction` in each of its six cases. -/
theorem createTransaction_cases (tl : TxLib) (unspents : List Unspent) :
    (unspents.all tl.inputAccepted = false →
      createTransaction tl unspents = ([], .error .libraryError)) ∧
    (unspents.all tl.inputAccepted = true →
      ((Num.gt (approximateFee (approximateSize (tl.serializedLength unspents) unspents.length))
          (totalValue unspents) = true →
        createTransaction tl unspents = ([], .error .insufficientFunds)) ∧
       (Num.gt (approximateFee (approximateSize (tl.serializedLength unspents) unspents.length))
          (totalValue unspents) = false →
        ((tl.outputAccepted unspents (Num.sub (totalValue unspents)
            (approximateFee (approximateSize (tl.serializedLength unspents) unspents.length)))
            = false →
          createTransaction tl unspents = ([], .error .libraryError)) ∧
         (tl.outputAccepted unspents (Num.sub (totalValue unspents)
            (approximateFee (approximateSize (tl.serializedLength unspents) unspents.length)))
            = true →
          ((∀ e, (signInputs tl unspents 0 []).2 = some e →
            createTransaction tl unspents = ((signInputs tl unspents 0 []).1, .error e)) ∧
           ((signInputs tl unspents 0 []).2 = none →
            ((tl.buildSucceeds unspents (signInputs tl unspents 0 []).1 = true →
              createTransaction tl unspents = ((signInputs tl unspents 0 []).1,
                .ok { inputs := unspents,
                      outputValue := Num.sub (totalValue unspents)
                        (approximateFee (approximateSize (tl.serializedLength unspents)
                          unspents.length)) })) ∧
             (tl.buildSucceeds unspents (signInputs tl unspents 0 []).1 = false →
              createTransaction tl unspents = ((signInputs tl unspents 0 []).1,
                .error .libraryError)))))))))) := by
  refine ⟨fun ha => by simp [createTransaction, ha], fun ha => ⟨fun hg => ?_, fun hg =>
    ⟨fun ho => ?_, fun ho => ⟨fun e hs => ?_, fun hs => ⟨fun hb => ?_, fun hb => ?_⟩⟩⟩⟩⟩
  · simp [createTransaction, ha, hg]
  · simp [createTransaction, ha, hg, ho]
  · simp [createTransaction, ha, hg, ho, hs]
  · simp [createTransaction, ha, hg, ho, hs, hb]
  · simp [createTransaction, ha, hg, ho, hs, hb]

/-- Claim C2, amended: for every list of unspents `createTransaction` fails with the
insufficient-funds error if and only if the library accepted every input and the fee is
strictly greater than `totalValue`, the sum of the input values as the loop accumulates it in
binary64 arithmetic; it then fails before any signing call is made.  When the inputs are
accepted and the fee is not greater than `totalValue`, the output gets the value
`totalValue - fee`, which is 0 when the fee equals `totalValue`, and that is the output value
of every transaction that is built.  `totalValue` is the exact sum of the input values
whenever these are whole numbers whose sum is below `2 ^ 53`. -/
theorem createTransaction_insufficientFunds_iff (tl : TxLib) (unspents : List Unspent) :
    ((createTransaction tl unspents).2 = .error .insufficientFunds ↔
      unspents.all tl.inputAccepted = true ∧
      (totalValue unspents).toRat <
        (approximateFee (approximateSize (tl.serializedLength unspents) unspents.length)).toRat) ∧
    ((createTransaction tl unspents).2 = .error .insufficientFunds →
      (createTransaction tl unspents).1 = []) ∧
    (unspents.all tl.inputAccepted = true →
      ¬ (totalValue unspents).toRat <
        (approximateFee (approximateSize (tl.serializedLength unspents) unspents.length)).toRat →
      tl.outputAccepted unspents (Num.sub (totalValue unspents)
        (approximateFee (approximateSize (tl.serializedLength unspents) unspents.length))) = true →
      (signInputs tl unspents 0 []).2 = none →
      tl.buildSucceeds unspents (signInputs tl unspents 0 []).1 = true →
      (createTransaction tl unspents).2 = .ok
        { inputs := unspents,
          outputValue := Num.sub (totalValue unspents)
            (approximateFee (approximateSize (tl.serializedLength unspents) unspents.length)) }) ∧
    (∀ built, (createTransaction tl unspents).2 = .ok built →
      ¬ (totalValue unspents).toRat <
        (approximateFee (approximateSize (tl.serializedLength unspents) unspents.length)).toRat ∧
      built =
        { inputs := unspents,
          outputValue := Num.sub (totalValue unspents)
            (approximateFee (approximateSize (tl.serializedLength unspents) unspents.length)) }) ∧
    ((totalValue unspents).toRat =
        (approximateFee (approximateSize (tl.serializedLength unspents) unspents.length)).toRat →
      (Num.sub (totalValue unspents)
        (approximateFee (approximateSize (tl.serializedLength unspents) unspents.length))).toRat
        = 0) ∧
    ((∀ u ∈ unspents, ∃ n : ℕ, u.value.toRat = n) →
      (unspents.map (fun u => u.value.toRat)).sum < 2 ^ 53 →
      (totalValue unspents).toRat = (unspents.map (fun u => u.value.toRat)).sum) := by
  obtain ⟨c1, c2⟩ := createTransaction_cases tl unspents
  generalize hfee : approximateFee (approximateSize (tl.serializedLength unspents)
    unspents.length) = fee at c2 ⊢
  have hgt : Num.gt fee (totalValue unspents) = true ↔ (totalValue unspents).toRat < fee.toRat :=
    Num.gt_iff _ _
  have hsign := signInputs_error tl unspents 0 []
  have hwhole : (∀ u ∈ unspents, ∃ n : ℕ, u.value.toRat = n) →
      (unspents.map (fun u => u.value.toRat)).sum < 2 ^ 53 →
      (totalValue unspents).toRat = (unspents.map (fun u => u.value.toRat)).sum := by
    intro hs hlt
    have := sumValues_exact unspents (Num.ofNat 0) 0 (by simp [Num.toRat, Num.ofNat]) hs
      (by simpa using hlt)
    rw [totalValue, this]
    simp
  cases ha : unspents.all tl.inputAccepted with
  | false =>
    rw [c1 ha]
    refine ⟨by simp, by simp, by simp, by simp, fun h => Num.sub_eq_zero _ _ h, hwhole⟩
  | true =>
    obtain ⟨c3, c4⟩ := c2 ha
    cases hg : Num.gt fee (totalValue unspents) with
    | true =>
      rw [c3 hg]
      have hlt := hgt.mp hg
      refine ⟨by simp [hlt], by simp, fun _ hn => absurd hlt hn, by simp,
        fun h => Num.sub_eq_zero _ _ h, hwhole⟩
    | false =>
      have hn : ¬ (totalValue unspents).toRat < fee.toRat := by
        intro h; rw [hgt.mpr h] at hg; cases hg
      obtain ⟨c5, c6⟩ := c4 hg
      cases ho : tl.outputAccepted unspents (Num.sub (totalValue unspents) fee) with
      | false =>
        rw [c5 ho]
        refine ⟨by simp [hn], by simp, by simp, by simp,
          fun h => Num.sub_eq_zero _ _ h, hwhole⟩
      | true =>
        obtain ⟨c7, c8⟩ := c6 ho
        cases hs : (signInputs tl unspents 0 []).2 with
        | some e =>
          rw [c7 e hs]
          have hne : e ≠ .insufficientFunds := fun h => hsign (by rw [hs, h])
          refine ⟨by simp [hn, hne], by simp [hne], by simp, by simp,
            fun h => Num.sub_eq_zero _ _ h, hwhole⟩
        | none =>
          obtain ⟨c9, c10⟩ := c8 hs
          cases hb : tl.buildSucceeds unspents (signInputs tl unspents 0 []).1 with
          | false =>
            rw [c10 hb]
            refine ⟨by simp [hn], by simp, by simp, by simp,
              fun h => Num.sub_eq_zero _ _ h, hwhole⟩
          | true =>
            rw [c9 hb]
            refine ⟨by simp [hn], by simp, by simp, ?_,
              fun h => Num.sub_eq_zero _ _ h, hwhole⟩
            intro built hbuilt
            simp only [Except.ok.injEq] at hbuilt
            exact ⟨hn, hbuilt.symm⟩

/-- The amended fee check at one unspent output of 5000 satoshi, which the library accepts:
the fee of 10000 satoshi is greater and `createTransaction` fails.  And the exact total on an
unspent output that `findUnspents` attaches for an amount of `0.0001`: its value
`0.0001 * 1e8` is the whole number 10000, and so is `totalValue`. -/
theorem createTransaction_insufficientFunds_iff_witness :
    (createTransaction exampleTxLib [exampleUnspent 3 5000]).2 = .error .insufficientFunds ∧
    (totalValue (attachUnspents (subAddressRecord unusedScan 0 3) 1
        [{ tx := "e3b0c44298fc1c149afbf4c8996fb92427ae41e4649b934ca495991b7852b855",
           amount := Num.lit0_0001, n := 0,
           script := "a914000000000000000000000000000000000000000087" }]
        { unspents := [], resolved := false, thrown := false }).unspents).toRat = 10000 :=
  ⟨(createTransaction_insufficientFunds_iff exampleTxLib [exampleUnspent 3 5000]).1.mpr ⟨by decide, by
      have hfee : approximateFee (approximateSize (exampleTxLib.serializedLength
          [exampleUnspent 3 5000]) [exampleUnspent 3 5000].length) = ⟨10000 * 2 ^ 66, 66⟩ := by
        decide
      have ht : totalValue [exampleUnspent 3 5000] = ⟨5000, 0⟩ := by decide
      rw [hfee, ht]; norm_num [Num.toRat]⟩,
   by
    have hv : Num.mul Num.lit0_0001 Num.lit1e8 = ⟨10000 * 2 ^ 66, 66⟩ := by decide
    have h := (createTransaction_insufficientFunds_iff exampleTxLib
      (attachUnspents (subAddressRecord unusedScan 0 3) 1
        [{ tx := "e3b0c44298fc1c149afbf4c8996fb92427ae41e4649b934ca495991b7852b855",
           amount := Num.lit0_0001, n := 0,
           script := "a914000000000000000000000000000000000000000087" }]
        { unspents := [], resolved := false, thrown := false }).unspents).2.2.2.2.2
      (by
        intro u hu
        simp only [attachUnspents, List.nil_append, List.mem_singleton] at hu
        subst hu
        exact ⟨10000, by simp only [hv]; norm_num [Num.toRat]⟩)
      (by
        simp only [attachUnspents, List.nil_append, List.map_cons, List.map_nil, List.sum_cons,
          List.sum_nil, hv]
        norm_num [Num.toRat])
    rw [h]
    simp only [attachUnspents, List.nil_append, List.map_cons, List.map_nil, List.sum_cons,
      List.sum_nil, hv]
    norm_num [Num.toRat]⟩

/-! ## The gap limit of `findSubAddresses` -/

/-- The chain of calls unrolled at its end: each further unit of fuel makes one more call of
`tryAddress` unless `deferred` is resolved. -/
theorem scanSteps_succ (sc : Scan) (fuel : Nat) : ∀ st : ScanState,
    scanSteps sc (fuel + 1) st =
      if (scanSteps sc fuel st).resolved then scanSteps sc fuel st
      else tryAddress sc (scanSteps sc fuel st) := by
  induction fuel with
  | zero => intro st; simp [scanSteps]
  | succ fuel ih =>
    intro st
    rw [scanSteps]
    by_cases h : st.resolved = true
    · have hfix : ∀ k, scanSteps sc k st = st := by
        intro k; cases k <;> simp [scanSteps, h]
      simp [h, hfix]
    · simp only [h]
      rw [ih (tryAddress sc st)]
      simp [scanSteps, h]

/-- Once `deferred` is resolved no further call of `tryAddress` is made. -/
theorem scanSteps_resolved (sc : Scan) (st : ScanState) (h : st.resolved = true) :
    ∀ fuel, scanSteps sc fuel st = st := by
  intro fuel; cases fuel <;> simp [scanSteps, h]

/-- A probe of an address with a positive balance always continues at the next index of the
same chain, whatever the counter has become. -/
theorem tryAddress_positive_balance (sc : Scan) (st : ScanState)
    (h : 0 < (sc.info (subAddressString sc st.keyIndex st.addressIndex)).balance) :
    (tryAddress sc st).keyIndex = st.keyIndex ∧
    (tryAddress sc st).addressIndex = st.addressIndex + 1 ∧
    (tryAddress sc st).numSequentialAddressesWithoutTxs =
      (if (sc.info (subAddressString sc st.keyIndex st.addressIndex)).nb_txs = 0
        then st.numSequentialAddressesWithoutTxs + 1 else 0) ∧
    (tryAddress sc st).resolved = false := by
  simp [tryAddress, h]

/-- A probe of an address without positive balance that leaves the counter at 20 or more
switches from chain 0 to `tryAddress(1, 0)` with the counter at 0, and resolves `deferred` on
any other chain. -/
theorem tryAddress_gap (sc : Scan) (st : ScanState)
    (hb : (sc.info (subAddressString sc st.keyIndex st.addressIndex)).balance ≤ 0)
    (hn : MAX_SEQUENTIAL_ADDRESSES_WITHOUT_TXS ≤
      (if (sc.info (subAddressString sc st.keyIndex st.addressIndex)).nb_txs = 0
        then st.numSequentialAddressesWithoutTxs + 1 else 0)) :
    (st.keyIndex = 0 → tryAddress sc st =
      { keyIndex := 1, addressIndex := 0, numSequentialAddressesWithoutTxs := 0,
        subAddresses := st.subAddresses,
        tried := st.tried ++ [(st.keyIndex, st.addressIndex)], resolved := false }) ∧
    (st.keyIndex ≠ 0 → (tryAddress sc st).resolved = true ∧
      (tryAddress sc st).tried = st.tried ++ [(st.keyIndex, st.addressIndex)] ∧
      (tryAddress sc st).subAddresses = st.subAddresses) := by
  obtain ⟨k, i, c, subs, tr, r⟩ := st
  simp only at hb hn ⊢
  have hb' : ¬ 0 < (sc.info (subAddressString sc k i)).balance := by omega
  constructor
  · intro hk
    subst hk
    simp [tryAddress, hb', hn]
  · intro hk
    simp [tryAddress, hb', hn, hk]

/-- While the scan has not left chain 0 it has probed the indices in order, and from index
6 on the counter has grown with every probe. -/
theorem scan_gap_invariant (sc : Scan)
    (hz : ∀ i, 6 ≤ i → i ≤ 25 → (sc.info (subAddressString sc 0 i)).nb_txs = 0) :
    ∀ j, j ≤ 25 →
      (∃ t, t ≤ j ∧ SwitchedAfter sc t) ∨
      ((scanSteps sc j scanStart).keyIndex = 0 ∧
       (scanSteps sc j scanStart).addressIndex = j ∧
       (scanSteps sc j scanStart).resolved = false ∧
       (scanSteps sc j scanStart).tried = (List.range j).map (fun i => (0, i)) ∧
       j ≤ (scanSteps sc j scanStart).numSequentialAddressesWithoutTxs + 6) := by
  intro j
  induction j with
  | zero => intro _; right; simp [scanSteps, scanStart]
  | succ j ih =>
    intro hj
    rcases ih (by omega) with ⟨t, ht, hsw⟩ | ⟨hk, hi, hr, htr, hc⟩
    · exact Or.inl ⟨t, by omega, hsw⟩
    · have hstep : scanSteps sc (j + 1) scanStart = tryAddress sc (scanSteps sc j scanStart) := by
        rw [scanSteps_succ, hr]; simp
      generalize scanSteps sc j scanStart = st at hk hi hr htr hc hstep
      have hcount : j + 1 ≤ (if (sc.info (subAddressString sc st.keyIndex st.addressIndex)).nb_txs = 0
          then st.numSequentialAddressesWithoutTxs + 1 else 0) + 6 := by
        by_cases h6 : 6 ≤ j
        · rw [hk, hi, hz j h6 (by omega)]; simp; omega
        · omega
      have htried : st.tried ++ [(st.keyIndex, st.addressIndex)]
          = (List.range (j + 1)).map (fun i => (0, i)) := by
        rw [List.range_succ, List.map_append, htr, hk, hi]; rfl
      have hlog : (tryAddress sc st).tried = st.tried ++ [(st.keyIndex, st.addressIndex)] := by
        simp only [tryAddress]; split_ifs <;> rfl
      by_cases hb : 0 < (sc.info (subAddressString sc st.keyIndex st.addressIndex)).balance
      · right
        obtain ⟨h1, h2, h3, h4⟩ := tryAddress_positive_balance sc st hb
        rw [hstep]
        exact ⟨by rw [h1, hk], by rw [h2, hi], h4, by rw [hlog, htried], by rw [h3]; exact hcount⟩
      · by_cases hn : MAX_SEQUENTIAL_ADDRESSES_WITHOUT_TXS ≤
            (if (sc.info (subAddressString sc st.keyIndex st.addressIndex)).nb_txs = 0
              then st.numSequentialAddressesWithoutTxs + 1 else 0)
        · left
          refine ⟨j + 1, le_refl _, ?_⟩
          have hsw := (tryAddress_gap sc st (by omega) hn).1 hk
          unfold SwitchedAfter
          rw [hstep, hsw]
          exact ⟨rfl, rfl, rfl, rfl, htried⟩
        · right
          rw [hstep]
          have hne : (tryAddress sc st) =
              { keyIndex := st.keyIndex, addressIndex := st.addressIndex + 1,
                numSequentialAddressesWithoutTxs :=
                  (if (sc.info (subAddressString sc st.keyIndex st.addressIndex)).nb_txs = 0
                    then st.numSequentialAddressesWithoutTxs + 1 else 0),
                subAddresses := st.subAddresses,
                tried := st.tried ++ [(st.keyIndex, st.addressIndex)], resolved := false } := by
            simp only [tryAddress, hb, if_false, ge_iff_le, hn]
          rw [hne]
          exact ⟨hk, by simp [hi], rfl, htried, hcount⟩

/-- Gap limit on chain 0: when the addresses at the indices 6 to 25 of chain 0 have no
transaction and the one at index 25 has no positive balance, chain 0 is left after at most 26
probes, at the indices `0` to `t - 1`. -/
theorem scan_gap_switch (sc : Scan)
    (hz : ∀ i, 6 ≤ i → i ≤ 25 → (sc.info (subAddressString sc 0 i)).nb_txs = 0)
    (hb : (sc.info (subAddressString sc 0 25)).balance ≤ 0) :
    ∃ t, t ≤ 26 ∧ SwitchedAfter sc t := by
  rcases scan_gap_invariant sc hz 25 (le_refl _) with ⟨t, ht, hsw⟩ | ⟨hk, hi, hr, htr, hc⟩
  · exact ⟨t, by omega, hsw⟩
  · refine ⟨26, le_refl _, ?_⟩
    have hstep : scanSteps sc 26 scanStart = tryAddress sc (scanSteps sc 25 scanStart) := by
      rw [scanSteps_succ, hr]; simp
    generalize scanSteps sc 25 scanStart = st at hk hi hr htr hc hstep
    have hn : MAX_SEQUENTIAL_ADDRESSES_WITHOUT_TXS ≤
        (if (sc.info (subAddressString sc st.keyIndex st.addressIndex)).nb_txs = 0
          then st.numSequentialAddressesWithoutTxs + 1 else 0) := by
      rw [hk, hi, hz 25 (by omega) (le_refl _)]
      simp [MAX_SEQUENTIAL_ADDRESSES_WITHOUT_TXS]; omega
    have hsw := (tryAddress_gap sc st (by rw [hk, hi]; exact hb) hn).1 hk
    unfold SwitchedAfter
    rw [hstep, hsw]
    refine ⟨rfl, rfl, rfl, rfl, ?_⟩
    show st.tried ++ [(st.keyIndex, st.addressIndex)] = _
    rw [List.range_succ, List.map_append, htr, hk, hi]; rfl
/-- The lookup of a key in a list with a first binding. -/
theorem lookup_cons_ite {α : Type} (a k : String) (b : α) (es : List (String × α)) :
    List.lookup a ((k, b) :: es) = if a = k then some b else List.lookup a es := by
  rw [List.lookup_cons]
  by_cases h : a = k
  · simp [h]
  · have : (a == k) = false := by simpa using h
    simp [h, this]

/-- The lookup of a key after the binding of `key` has been replaced. -/
theorem lookup_replace {α : Type} (key other : String) (value : α) :
    ∀ map : List (String × α),
      List.lookup other (map.map (fun e => if e.1 == key then (key, value) else e)) =
        if other = key then (if map.any (fun e => e.1 == key) then some value else none)
        else List.lookup other map := by
  intro map
  induction map with
  | nil => simp
  | cons e rest ih =>
    obtain ⟨k, v⟩ := e
    by_cases hk : k = key
    · subst hk
      by_cases ho : other = k
      · simp [lookup_cons_ite, ho]
      · simp only [List.map_cons, beq_self_eq_true, if_true, lookup_cons_ite, ho, if_false, ih]
    · have hkb : (k == key) = false := by simpa using hk
      by_cases ho : other = key
      · subst ho
        have hne : ¬ other = k := fun h => hk h.symm
        simp only [List.map_cons, hkb, Bool.false_eq_true, if_false, lookup_cons_ite, hne, ih,
          if_true, List.any_cons, Bool.false_or]
      · simp only [List.map_cons, hkb, Bool.false_eq_true, if_false, lookup_cons_ite, ih, ho]

/-- The lookup of a key after a binding of `key` has been appended. -/
theorem lookup_append_singleton {α : Type} (key other : String) (value : α) :
    ∀ map : List (String × α),
      List.lookup other (map ++ [(key, value)]) =
        if other = key then (if map.any (fun e => e.1 == key) then List.lookup other map else some value)
        else List.lookup other map := by
  intro map
  induction map with
  | nil => simp [lookup_cons_ite]
  | cons e rest ih =>
    obtain ⟨k, v⟩ := e
    by_cases hk : k = key
    · subst hk
      by_cases ho : other = k
      · simp [lookup_cons_ite, ho]
      · simp only [List.cons_append, lookup_cons_ite, ho, if_false, ih]
    · have hkb : (k == key) = false := by simpa using hk
      by_cases ho : other = key
      · subst ho
        have hne : ¬ other = k := fun h => hk h.symm
        simp only [List.cons_append, lookup_cons_ite, hne, if_false, ih, if_true, List.any_cons,
          hkb, Bool.false_or]
      · simp only [List.cons_append, lookup_cons_ite, ih, ho, if_false]

/-- After the assignment `map[key] = value` the key is bound to the value. -/
theorem lookup_assign_self {α : Type} (map : List (String × α)) (key : String) (value : α) :
    List.lookup key (assign map key value) = some value := by
  unfold assign
  by_cases hany : map.any (fun e => e.1 == key) = true
  · simp only [hany, if_true, lookup_replace]
  · simp only [hany, if_false, lookup_append_singleton, if_true, Bool.false_eq_true]

/-- The assignment `map[key] = value` leaves the other keys as they are. -/
theorem lookup_assign_other {α : Type} (map : List (String × α)) (key other : String)
    (value : α) (h : other ≠ key) :
    List.lookup other (assign map key value) = List.lookup other map := by
  unfold assign
  by_cases hany : map.any (fun e => e.1 == key) = true
  · simp only [hany, if_true, lookup_replace, h, if_false]
  · simp only [hany, if_false, lookup_append_singleton, h, Bool.false_eq_true]

/-- The three ways in which a call of `tryAddress` that does not end the chain or the scan
goes on: the state after a probe of a funded address, and after a probe of an address without
positive balance that leaves the counter below 20. -/
theorem tryAddress_goes_on (sc : Scan) (st : ScanState) :
    (0 < (sc.info (subAddressString sc st.keyIndex st.addressIndex)).balance →
      tryAddress sc st =
        { keyIndex := st.keyIndex, addressIndex := st.addressIndex + 1,
          numSequentialAddressesWithoutTxs :=
            (if (sc.info (subAddressString sc st.keyIndex st.addressIndex)).nb_txs = 0
              then st.numSequentialAddressesWithoutTxs + 1 else 0),
          subAddresses := assign st.subAddresses
            (subAddressString sc st.keyIndex st.addressIndex)
            (subAddressRecord sc st.keyIndex st.addressIndex),
          tried := st.tried ++ [(st.keyIndex, st.addressIndex)], resolved := false }) ∧
    ((sc.info (subAddressString sc st.keyIndex st.addressIndex)).balance ≤ 0 →
      (if (sc.info (subAddressString sc st.keyIndex st.addressIndex)).nb_txs = 0
        then st.numSequentialAddressesWithoutTxs + 1 else 0)
        < MAX_SEQUENTIAL_ADDRESSES_WITHOUT_TXS →
      tryAddress sc st =
        { keyIndex := st.keyIndex, addressIndex := st.addressIndex + 1,
          numSequentialAddressesWithoutTxs :=
            (if (sc.info (subAddressString sc st.keyIndex st.addressIndex)).nb_txs = 0
              then st.numSequentialAddressesWithoutTxs + 1 else 0),
          subAddresses := st.subAddresses,
          tried := st.tried ++ [(st.keyIndex, st.addressIndex)], resolved := false }) := by
  constructor
  · intro hb
    simp only [tryAddress, gt_iff_lt, hb, if_true]
  · intro hb hn
    have hb' : ¬ 0 < (sc.info (subAddressString sc st.keyIndex st.addressIndex)).balance := by
      omega
    have hn' : ¬ MAX_SEQUENTIAL_ADDRESSES_WITHOUT_TXS ≤
        (if (sc.info (subAddressString sc st.keyIndex st.addressIndex)).nb_txs = 0
          then st.numSequentialAddressesWithoutTxs + 1 else 0) := by omega
    simp only [tryAddress, gt_iff_lt, hb', if_false, ge_iff_le, hn']

/-- The state in which `deferred` is resolved: a probe on a chain other than chain 0 of an
address without positive balance that leaves the counter at 20 or more. -/
theorem tryAddress_resolves (sc : Scan) (st : ScanState)
    (hb : (sc.info (subAddressString sc st.keyIndex st.addressIndex)).balance ≤ 0)
    (hn : MAX_SEQUENTIAL_ADDRESSES_WITHOUT_TXS ≤
      (if (sc.info (subAddressString sc st.keyIndex st.addressIndex)).nb_txs = 0
        then st.numSequentialAddressesWithoutTxs + 1 else 0))
    (hk : st.keyIndex ≠ 0) :
    tryAddress sc st =
      { keyIndex := st.keyIndex, addressIndex := st.addressIndex,
        numSequentialAddressesWithoutTxs :=
          (if (sc.info (subAddressString sc st.keyIndex st.addressIndex)).nb_txs = 0
            then st.numSequentialAddressesWithoutTxs + 1 else 0),
        subAddresses := st.subAddresses,
        tried := st.tried ++ [(st.keyIndex, st.addressIndex)], resolved := true } := by
  have hb' : ¬ 0 < (sc.info (subAddressString sc st.keyIndex st.addressIndex)).balance := by
    omega
  simp only [tryAddress, gt_iff_lt, hb', if_false, ge_iff_le, hn, if_true, hk]

/-- Claim C3, refuted as stated: with no transaction counted anywhere and a positive balance
at chain 0, index 19, the probe of index 19 brings the counter to 20, and the scanner goes on
with chain 0 at index 20, the counter still at 20; it leaves chain 0 one probe later. -/
theorem gap_limit_counterexample :
    (scanSteps fundedUnusedScan 19 scanStart).keyIndex = 0 ∧
    (scanSteps fundedUnusedScan 19 scanStart).addressIndex = 19 ∧
    (scanSteps fundedUnusedScan 19 scanStart).numSequentialAddressesWithoutTxs = 19 ∧
    fundedUnusedScan.info (subAddressString fundedUnusedScan 0 19) = ⟨0, 1⟩ ∧
    (scanSteps fundedUnusedScan 20 scanStart).numSequentialAddressesWithoutTxs = 20 ∧
    (scanSteps fundedUnusedScan 20 scanStart).keyIndex = 0 ∧
    (scanSteps fundedUnusedScan 20 scanStart).addressIndex = 20 ∧
    (scanSteps fundedUnusedScan 20 scanStart).resolved = false ∧
    ¬ SwitchedAfter fundedUnusedScan 20 ∧
    SwitchedAfter fundedUnusedScan 21 := by
  refine ⟨by decide, by decide, by decide, by decide, by decide, by decide, by decide,
    by decide, ?_, ?_⟩
  · intro h
    have h1 := h.1
    revert h1
    decide
  · exact ⟨by decide, by decide, by decide, by decide, by decide⟩

/-- Claim C3, amended: for every oracle, a probe of an address without positive balance that
leaves the count of consecutive zero-transaction-count addresses at 20 or more makes the
scanner react: on chain 0 it continues at chain 1, index 0 with the counter reset to 0, and
on any other chain it resolves and makes no further probe; the map of sub-addresses is left
as it is.  A probe of an address with a positive balance never triggers the reaction, whatever
the count: it records the address in the map, under its address string and with its chain,
index, keys and redeem script, leaves the other entries of the map as they are, and continues
at the next index of the same chain.  A probe of an address without positive balance that
leaves the count below 20 continues at the next index of the same chain and leaves the map as
it is.  Witness: with zero transaction count at chain-0 indices 6 through 25 and no positive
balance at index 25, chain 0 is not probed past index 25 and chain 1 starts at index 0 with
its counter at zero. -/
theorem findSubAddresses_gap_limit (sc : Scan) :
    (∀ st : ScanState,
      (sc.info (subAddressString sc st.keyIndex st.addressIndex)).balance ≤ 0 →
      MAX_SEQUENTIAL_ADDRESSES_WITHOUT_TXS ≤
        (if (sc.info (subAddressString sc st.keyIndex st.addressIndex)).nb_txs = 0
          then st.numSequentialAddressesWithoutTxs + 1 else 0) →
      (st.keyIndex = 0 → tryAddress sc st =
        { keyIndex := 1, addressIndex := 0, numSequentialAddressesWithoutTxs := 0,
          subAddresses := st.subAddresses,
          tried := st.tried ++ [(st.keyIndex, st.addressIndex)], resolved := false }) ∧
      (st.keyIndex ≠ 0 →
        tryAddress sc st =
          { keyIndex := st.keyIndex, addressIndex := st.addressIndex,
            numSequentialAddressesWithoutTxs :=
              (if (sc.info (subAddressString sc st.keyIndex st.addressIndex)).nb_txs = 0
                then st.numSequentialAddressesWithoutTxs + 1 else 0),
            subAddresses := st.subAddresses,
            tried := st.tried ++ [(st.keyIndex, st.addressIndex)], resolved := true } ∧
        (tryAddress sc st).resolved = true ∧
        ∀ fuel, scanSteps sc fuel (tryAddress sc st) = tryAddress sc st)) ∧
    (∀ st : ScanState,
      0 < (sc.info (subAddressString sc st.keyIndex st.addressIndex)).balance →
      (tryAddress sc st).keyIndex = st.keyIndex ∧
      (tryAddress sc st).addressIndex = st.addressIndex + 1 ∧
      (tryAddress sc st).numSequentialAddressesWithoutTxs =
        (if (sc.info (subAddressString sc st.keyIndex st.addressIndex)).nb_txs = 0
          then st.numSequentialAddressesWithoutTxs + 1 else 0) ∧
      (tryAddress sc st).resolved = false ∧
      (tryAddress sc st).tried = st.tried ++ [(st.keyIndex, st.addressIndex)] ∧
      (tryAddress sc st).subAddresses =
        assign st.subAddresses (subAddressString sc st.keyIndex st.addressIndex)
          (subAddressRecord sc st.keyIndex st.addressIndex) ∧
      List.lookup (subAddressString sc st.keyIndex st.addressIndex)
          (tryAddress sc st).subAddresses
        = some (subAddressRecord sc st.keyIndex st.addressIndex) ∧
      (∀ other, other ≠ subAddressString sc st.keyIndex st.addressIndex →
        List.lookup other (tryAddress sc st).subAddresses
          = List.lookup other st.subAddresses) ∧
      subAddressRecord sc st.keyIndex st.addressIndex =
        { address := subAddressString sc st.keyIndex st.addressIndex,
          keyIndex := st.keyIndex,
          addressIndex := st.addressIndex,
          keys := sc.baseAddress.keys.map (fun keyData =>
            { key := { root := keyData.key,
                       path := keyData.path ++ "/" ++ toString st.keyIndex ++ "/"
                         ++ toString st.addressIndex },
              path := keyData.path ++ "/" ++ toString st.keyIndex ++ "/"
                ++ toString st.addressIndex }),
          redeemScript := sc.lib.multisigOutput 2
            (sc.baseAddress.keys.map (fun keyData =>
              sc.lib.deriveFromPath keyData.key
                (keyData.path ++ "/" ++ toString st.keyIndex ++ "/"
                  ++ toString st.addressIndex))) }) ∧
    (∀ st : ScanState,
      (sc.info (subAddressString sc st.keyIndex st.addressIndex)).balance ≤ 0 →
      (if (sc.info (subAddressString sc st.keyIndex st.addressIndex)).nb_txs = 0
        then st.numSequentialAddressesWithoutTxs + 1 else 0)
        < MAX_SEQUENTIAL_ADDRESSES_WITHOUT_TXS →
      tryAddress sc st =
        { keyIndex := st.keyIndex, addressIndex := st.addressIndex + 1,
          numSequentialAddressesWithoutTxs :=
            (if (sc.info (subAddressString sc st.keyIndex st.addressIndex)).nb_txs = 0
              then st.numSequentialAddressesWithoutTxs + 1 else 0),
          subAddresses := st.subAddresses,
          tried := st.tried ++ [(st.keyIndex, st.addressIndex)], resolved := false }) ∧
    MAX_SEQUENTIAL_ADDRESSES_WITHOUT_TXS = 20 ∧
    ((∀ i, 6 ≤ i → i ≤ 25 → (sc.info (subAddressString sc 0 i)).nb_txs = 0) →
      (sc.info (subAddressString sc 0 25)).balance ≤ 0 →
      ∃ t, t ≤ 26 ∧ SwitchedAfter sc t) := by
  refine ⟨fun st hb hn => ⟨(tryAddress_gap sc st hb hn).1, fun hk => ?_⟩,
    fun st hb => ?_,
    fun st hb hn => (tryAddress_goes_on sc st).2 hb hn,
    rfl,
    fun hz hb => scan_gap_switch sc hz hb⟩
  · have hres := ((tryAddress_gap sc st hb hn).2 hk).1
    exact ⟨tryAddress_resolves sc st hb hn hk, hres, scanSteps_resolved sc _ hres⟩
  · have heq := (tryAddress_goes_on sc st).1 hb
    obtain ⟨h1, h2, h3, h4⟩ := tryAddress_positive_balance sc st hb
    refine ⟨h1, h2, h3, h4, by rw [heq], by rw [heq], ?_, ?_, rfl⟩
    · rw [heq]; exact lookup_assign_self _ _ _
    · intro other ho
      rw [heq]; exact lookup_assign_other _ _ _ _ ho

/-- The amended gap limit on a scan in which exactly the addresses at chain 0, indices 0 to 5
have a transaction: chain 0 is left after at most 26 probes. -/
theorem findSubAddresses_gap_limit_witness :
    ∃ t, t ≤ 26 ∧ SwitchedAfter gapScan t :=
  (findSubAddresses_gap_limit gapScan).2.2.2.2
    (by intro i h6 h25; interval_cases i <;> decide) (by decide)

/-! ## The search order of `findBaseAddress` -/

/-- The function `tryPath` on a combination. -/
theorem tryPath_candidate (s : Search) (c : Candidate) :
    tryPath s c.user c.backup c.bitgo = if c.hasHistory s then some (c.result s) else none := by
  simp only [tryPath, Candidate.hasHistory, Candidate.result, gt_iff_lt, decide_eq_true_eq]

/-- Probing in order issues the probes of the combinations before the first hit and of the
hit itself, and reports the first hit. -/
theorem probeInOrder_eq (s : Search) (l : List Candidate) :
    probeInOrder s l =
      ((l.takeWhile (fun c => !c.hasHistory s)).map (Candidate.probe s) ++
        ((l.find? (fun c => c.hasHistory s)).toList).map (Candidate.probe s),
       (l.find? (fun c => c.hasHistory s)).map (Candidate.result s)) := by
  induction l with
  | nil => rfl
  | cons c rest ih =>
    by_cases h : c.hasHistory s = true
    · simp [probeInOrder, h, List.takeWhile, List.find?]
    · simp only [Bool.not_eq_true] at h
      simp [probeInOrder, h, List.takeWhile, List.find?, ih]

/-- One call of `tryNewKeys` with its callback. -/
theorem tryNewKeys_step (s : Search) (i : Nat) :
    tryNewKeys s i =
      if (newCandidate i).hasHistory s then
        ([(newCandidate i).probe s], some ((newCandidate i).result s))
      else if 3 ≤ i + 1 then ([(newCandidate i).probe s], none)
      else ((newCandidate i).probe s :: (tryNewKeys s (i + 1)).1, (tryNewKeys s (i + 1)).2) := by
  rw [tryNewKeys]
  have h := tryPath_candidate s (newCandidate i)
  simp only [newCandidate] at h
  simp only [newPath, h, MAX_ADDRESS_INDEX_TO_TRY, ge_iff_le]
  by_cases hh : (newCandidate i).hasHistory s = true
  · simp only [newCandidate] at hh
    simp [hh, newCandidate, Candidate.probe]
  · simp only [newCandidate] at hh
    simp [hh, newCandidate, Candidate.probe]

/-- One call of `tryOldKeys` with its callback. -/
theorem tryOldKeys_step (s : Search) (k a : Nat) :
    tryOldKeys s k a =
      if (legacyCandidate (k, a)).hasHistory s then
        ([(legacyCandidate (k, a)).probe s], some ((legacyCandidate (k, a)).result s))
      else if 3 ≤ a + 1 then
        if 120 ≤ k + 1 then ([(legacyCandidate (k, a)).probe s], none)
        else ((legacyCandidate (k, a)).probe s :: (tryOldKeys s (k + 1) 0).1,
          (tryOldKeys s (k + 1) 0).2)
      else ((legacyCandidate (k, a)).probe s :: (tryOldKeys s k (a + 1)).1,
        (tryOldKeys s k (a + 1)).2) := by
  rw [tryOldKeys]
  have h := tryPath_candidate s (legacyCandidate (k, a))
  simp only [legacyCandidate] at h
  simp only [oldUserPath, oldBackupPath, oldBitgoPath, h, MAX_ADDRESS_INDEX_TO_TRY,
    MAX_BITGO_KEY_TO_TRY, ge_iff_le]
  by_cases hh : (legacyCandidate (k, a)).hasHistory s = true
  · simp only [legacyCandidate] at hh
    simp [hh, legacyCandidate, Candidate.probe]
  · simp only [legacyCandidate] at hh
    simp [hh, legacyCandidate, Candidate.probe]

/-- The new-scheme search probes the three new-scheme combinations in order. -/
theorem tryNewKeys_eq (s : Search) :
    tryNewKeys s 0 = probeInOrder s (newIndices.map newCandidate) := by
  have e2 : tryNewKeys s 2 = probeInOrder s [newCandidate 2] := by
    rw [tryNewKeys_step]; simp [probeInOrder]
  have e1 : tryNewKeys s 1 = probeInOrder s [newCandidate 1, newCandidate 2] := by
    rw [tryNewKeys_step, e2]; simp [probeInOrder]
  rw [tryNewKeys_step, e1]; simp [probeInOrder, newIndices]

/-- The last legacy pair. -/
theorem legacyIndicesFrom_last : legacyIndicesFrom 119 2 = [(119, 2)] := by decide

/-- After address index 2 the legacy pairs go on with the next `bitgoKeyIndex` at address
index 0. -/
theorem legacyIndicesFrom_row (k : Nat) (h : k < 119) :
    legacyIndicesFrom k 2 = (k, 2) :: legacyIndicesFrom (k + 1) 0 := by
  obtain ⟨d, hd⟩ : ∃ d, 119 - k = d + 1 := ⟨118 - k, by omega⟩
  have hd' : 119 - (k + 1) = d := by omega
  simp only [legacyIndicesFrom, hd, hd', List.range'_succ]
  simp [List.range']

/-- Below address index 2 the legacy pairs go on with the next address index. -/
theorem legacyIndicesFrom_succ (k a : Nat) (h : a < 2) :
    legacyIndicesFrom k a = (k, a) :: legacyIndicesFrom k (a + 1) := by
  obtain ⟨d, hd⟩ : ∃ d, 3 - a = d + 1 := ⟨2 - a, by omega⟩
  have hd' : 3 - (a + 1) = d := by omega
  simp only [legacyIndicesFrom, hd, hd', List.range'_succ]
  simp

/-- From any legacy pair on, the legacy search probes the remaining pairs in lexicographic
order. -/
theorem tryOldKeys_from (s : Search) : ∀ d k, k + d = 119 → ∀ a, a < 3 →
    tryOldKeys s k a = probeInOrder s ((legacyIndicesFrom k a).map legacyCandidate) := by
  intro d
  induction d with
  | zero =>
    intro k hk
    have hk : k = 119 := by omega
    subst hk
    have e2 : tryOldKeys s 119 2
        = probeInOrder s ((legacyIndicesFrom 119 2).map legacyCandidate) := by
      rw [tryOldKeys_step, legacyIndicesFrom_last]; simp [probeInOrder]
    have e1 : tryOldKeys s 119 1
        = probeInOrder s ((legacyIndicesFrom 119 1).map legacyCandidate) := by
      rw [tryOldKeys_step, e2, legacyIndicesFrom_succ 119 1 (by omega)]; simp [probeInOrder]
    have e0 : tryOldKeys s 119 0
        = probeInOrder s ((legacyIndicesFrom 119 0).map legacyCandidate) := by
      rw [tryOldKeys_step, e1, legacyIndicesFrom_succ 119 0 (by omega)]; simp [probeInOrder]
    intro a ha
    interval_cases a
    · exact e0
    · exact e1
    · exact e2
  | succ d ih =>
    intro k hk
    have hlt : k < 119 := by omega
    have e2 : tryOldKeys s k 2
        = probeInOrder s ((legacyIndicesFrom k 2).map legacyCandidate) := by
      rw [tryOldKeys_step, ih (k + 1) (by omega) 0 (by omega), legacyIndicesFrom_row k hlt]
      have : ¬ 120 ≤ k + 1 := by omega
      simp [probeInOrder, this]
    have e1 : tryOldKeys s k 1
        = probeInOrder s ((legacyIndicesFrom k 1).map legacyCandidate) := by
      rw [tryOldKeys_step, e2, legacyIndicesFrom_succ k 1 (by omega)]; simp [probeInOrder]
    have e0 : tryOldKeys s k 0
        = probeInOrder s ((legacyIndicesFrom k 0).map legacyCandidate) := by
      rw [tryOldKeys_step, e1, legacyIndicesFrom_succ k 0 (by omega)]; simp [probeInOrder]
    intro a ha
    interval_cases a
    · exact e0
    · exact e1
    · exact e2

/-- The legacy search started by `findBaseAddress` probes all legacy pairs in lexicographic
order. -/
theorem tryOldKeys_eq (s : Search) :
    tryOldKeys s INITIAL_BITGO_KEY_TO_TRY 0
      = probeInOrder s (legacyIndices.map legacyCandidate) := by
  have h : legacyIndicesFrom 101 0 = legacyIndices := by decide
  rw [← h]
  exact tryOldKeys_from s 18 101 (by omega) 0 (by omega)

/-- The search of `findBaseAddress` in terms of probing in order. -/
theorem findBaseAddress_eq (s : Search) :
    findBaseAddress s =
      match (probeInOrder s newCandidates).2 with
      | some address => ((probeInOrder s newCandidates).1, .resolved address)
      | none =>
        match (probeInOrder s legacyCandidates).2 with
        | some address =>
          ((probeInOrder s newCandidates).1 ++ (probeInOrder s legacyCandidates).1,
            .resolved address)
        | none =>
          ((probeInOrder s newCandidates).1 ++ (probeInOrder s legacyCandidates).1,
            .neverSettled .couldNotFindAddress) := by
  rw [findBaseAddress, tryNewKeys_eq, tryOldKeys_eq]
  rfl

/-- A new-scheme path is not a legacy user path. -/
theorem newPath_ne_oldUserPath (i a : Nat) :
    "m/0/0/0/" ++ toString i ≠ "m/100'/101/0/" ++ toString a := by
  intro h
  have := congrArg String.data h
  simp at this

/-- Claim C4: if some new-scheme address has transaction history and `i` is the smallest
index of one, the probes of `findBaseAddress` are those of the indices `0` to `i` in order
and the result is the address for `i`; no probe has the paths of a legacy combination, and a
match at `i = 0` is returned after exactly one probe. -/
theorem findBaseAddress_new_scheme (s : Search) (i : Nat) (hi : i < 3)
    (hhit : (newCandidate i).hasHistory s = true)
    (hmin : ∀ j, j < i → (newCandidate j).hasHistory s = false) :
    findBaseAddress s =
      ((List.range (i + 1)).map (fun j => (newCandidate j).probe s),
        .resolved ((newCandidate i).result s)) ∧
    (∀ p ∈ (findBaseAddress s).1, ∀ ka : Nat × Nat,
      p.paths ≠ ((legacyCandidate ka).probe s).paths) ∧
    (i = 0 → (findBaseAddress s).1.length = 1) := by
  have main : findBaseAddress s =
      ((List.range (i + 1)).map (fun j => (newCandidate j).probe s),
        .resolved ((newCandidate i).result s)) := by
    rw [findBaseAddress_eq]
    interval_cases i
    · simp [newCandidates, newIndices, probeInOrder, hhit, List.range_succ]
    · have h0 := hmin 0 (by omega)
      simp [newCandidates, newIndices, probeInOrder, hhit, h0, List.range_succ]
    · have h0 := hmin 0 (by omega)
      have h1 := hmin 1 (by omega)
      simp [newCandidates, newIndices, probeInOrder, hhit, h0, h1, List.range_succ]
  refine ⟨main, ?_, ?_⟩
  · rw [main]
    intro p hp ka
    simp only [List.mem_map] at hp
    obtain ⟨j, _, rfl⟩ := hp
    intro h
    simp only [Candidate.probe, probeOf, newCandidate, legacyCandidate, List.cons.injEq] at h
    exact newPath_ne_oldUserPath j ka.2 h.1
  · intro h0
    rw [main, h0]
    rfl

/-- The new-scheme search on a wallet whose new-scheme addresses at the indices 1 and 2 have
history: the indices 0 and 1 are probed and the address for index 1 is returned. -/
theorem findBaseAddress_new_scheme_witness :
    findBaseAddress newWalletSearch =
      ((List.range (1 + 1)).map (fun j => (newCandidate j).probe newWalletSearch),
        .resolved ((newCandidate 1).result newWalletSearch)) :=
  (findBaseAddress_new_scheme newWalletSearch 1 (by decide) (by decide)
    (by intro j hj; interval_cases j; decide)).1

/-- When no new-scheme address has history the new-scheme search probes all three
combinations and finds nothing. -/
theorem probeInOrder_new_none (s : Search)
    (hnew : ∀ c ∈ newCandidates, c.hasHistory s = false) :
    probeInOrder s newCandidates = (newCandidates.map (Candidate.probe s), none) := by
  have h0 := hnew (newCandidate 0) (by simp [newCandidates, newIndices])
  have h1 := hnew (newCandidate 1) (by simp [newCandidates, newIndices])
  have h2 := hnew (newCandidate 2) (by simp [newCandidates, newIndices])
  simp [newCandidates, newIndices, probeInOrder, h0, h1, h2]

/-- The legacy pairs are exactly the pairs with `bitgoKeyIndex` in `101..119` and
`addressIndex` in `0..2`. -/
theorem mem_legacyIndices (k a : Nat) :
    (k, a) ∈ legacyIndices ↔ 101 ≤ k ∧ k ≤ 119 ∧ a ≤ 2 := by
  simp only [legacyIndices, List.mem_flatMap, List.mem_map, List.mem_range', Prod.mk.injEq]
  constructor
  · rintro ⟨k', ⟨i, hi, rfl⟩, a', ⟨j, hj, rfl⟩, rfl, rfl⟩
    omega
  · rintro ⟨h1, h2, h3⟩
    exact ⟨k, ⟨k - 101, by omega, by omega⟩, a, ⟨a, by omega, by omega⟩, rfl, rfl⟩

/-- Claim C5: when no new-scheme address has history, the probes of `findBaseAddress` after
the three new-scheme probes are those of the legacy combinations (user path `m/100'/101/0/a`,
backup path `m/101/0/a`, bitgo path `m/k/0/a`) taken in lexicographic order of `(k, a)` over
`k` in `101..119` and `a` in `0..2`, up to and including the first one whose address has
history, and the result is that first combination; so `k` increases only after the address
indices 0, 1, 2 have all been probed for the current value. -/
theorem findBaseAddress_legacy_order (s : Search)
    (hnew : ∀ c ∈ newCandidates, c.hasHistory s = false) :
    (findBaseAddress s).1 =
      newCandidates.map (Candidate.probe s) ++
        ((legacyCandidates.takeWhile (fun c => !c.hasHistory s)).map (Candidate.probe s) ++
          ((legacyCandidates.find? (fun c => c.hasHistory s)).toList).map (Candidate.probe s)) ∧
    (findBaseAddress s).2 =
      (match legacyCandidates.find? (fun c => c.hasHistory s) with
        | some c => .resolved (c.result s)
        | none => .neverSettled .couldNotFindAddress) ∧
    legacyCandidates = legacyIndices.map legacyCandidate ∧
    (∀ k a, (k, a) ∈ legacyIndices ↔ 101 ≤ k ∧ k ≤ 119 ∧ a ≤ 2) ∧
    legacyIndices.Pairwise (fun x y => x.1 < y.1 ∨ (x.1 = y.1 ∧ x.2 < y.2)) ∧
    (∀ k a, legacyCandidate (k, a) =
      { user := "m/100'/101/0/" ++ toString a, backup := "m/101/0/" ++ toString a,
        bitgo := "m/" ++ toString k ++ "/0/" ++ toString a }) := by
  refine ⟨?_, ?_, rfl, mem_legacyIndices, by decide, fun _ _ => rfl⟩
  · rw [findBaseAddress_eq, probeInOrder_new_none s hnew, probeInOrder_eq s legacyCandidates]
    cases legacyCandidates.find? (fun c => c.hasHistory s) <;> rfl
  · rw [findBaseAddress_eq, probeInOrder_new_none s hnew, probeInOrder_eq s legacyCandidates]
    cases legacyCandidates.find? (fun c => c.hasHistory s) <;> rfl

/-- The legacy search on a wallet whose legacy addresses for `(102, 1)` and `(103, 0)` have
history: after the three new-scheme probes the pairs `(101, 0)` to `(102, 1)` are probed in
order and the combination for `(102, 1)` is returned. -/
theorem findBaseAddress_legacy_order_witness :
    (findBaseAddress legacyWalletSearch).1 =
      newCandidates.map (Candidate.probe legacyWalletSearch) ++
        ([(101, 0), (101, 1), (101, 2), (102, 0), (102, 1)].map
          (fun ka => (legacyCandidate ka).probe legacyWalletSearch)) ∧
    (findBaseAddress legacyWalletSearch).2 =
      .resolved ((legacyCandidate (102, 1)).result legacyWalletSearch) := by
  have h := findBaseAddress_legacy_order legacyWalletSearch (by decide)
  have hf : legacyCandidates.find? (fun c => c.hasHistory legacyWalletSearch)
      = some (legacyCandidate (102, 1)) := by decide
  have ht : legacyCandidates.takeWhile (fun c => !c.hasHistory legacyWalletSearch)
      = [(101, 0), (101, 1), (101, 2), (102, 0)].map legacyCandidate := by decide
  refine ⟨?_, ?_⟩
  · rw [h.1, hf, ht]; rfl
  · rw [h.2.1, hf]

/-- When none of the 3 new-scheme and none of the 57 legacy-scheme candidate addresses has
history, `findBaseAddress` makes exactly the 60 probes of these candidates, in order; then the
error 'could not find address with balance' is thrown in the discarded callback and the
returned promise never settles. -/
theorem findBaseAddress_exhausted (s : Search)
    (hnew : ∀ c ∈ newCandidates, c.hasHistory s = false)
    (hold : ∀ c ∈ legacyCandidates, c.hasHistory s = false) :
    findBaseAddress s =
      (newCandidates.map (Candidate.probe s) ++ legacyCandidates.map (Candidate.probe s),
        .neverSettled .couldNotFindAddress) ∧
    (findBaseAddress s).1.length = 60 ∧
    newCandidates.length = 3 ∧ legacyCandidates.length = 57 := by
  have hfind : legacyCandidates.find? (fun c => c.hasHistory s) = none := by
    rw [List.find?_eq_none]
    intro c hc
    simp [hold c hc]
  have htake : legacyCandidates.takeWhile (fun c => !c.hasHistory s) = legacyCandidates := by
    rw [List.takeWhile_eq_self_iff]
    intro c hc
    simp [hold c hc]
  have main : findBaseAddress s =
      (newCandidates.map (Candidate.probe s) ++ legacyCandidates.map (Candidate.probe s),
        .neverSettled .couldNotFindAddress) := by
    rw [findBaseAddress_eq, probeInOrder_new_none s hnew, probeInOrder_eq s legacyCandidates,
      hfind, htake]
    simp
  refine ⟨main, ?_, by decide, by decide⟩
  rw [main]
  simp only [List.length_append, List.length_map]
  decide

/-- Claim C8 on the code: on a wallet none of whose 3 new-scheme and 57 legacy-scheme
candidate addresses has history, `findBaseAddress` makes exactly those 60 probes and returns
no address, but it does not fail with the error: the error 'could not find address with
balance' is thrown in a callback whose promise is discarded, and the promise returned by
`findBaseAddress` is neither resolved nor rejected. -/
theorem findBaseAddress_exhausted_never_settles :
    (∀ c ∈ newCandidates ++ legacyCandidates, c.hasHistory unusedSearch = false) ∧
    findBaseAddress unusedSearch =
      (newCandidates.map (Candidate.probe unusedSearch) ++
        legacyCandidates.map (Candidate.probe unusedSearch),
        .neverSettled .couldNotFindAddress) ∧
    (findBaseAddress unusedSearch).1.length = 60 ∧
    (∀ w, (findBaseAddress unusedSearch).2 ≠ .resolved w) := by
  have h := findBaseAddress_exhausted unusedSearch (fun _ _ => rfl) (fun _ _ => rfl)
  refine ⟨fun _ _ => rfl, h.1, h.2.1, ?_⟩
  intro w hw
  rw [h.1] at hw
  cases hw

/-! ## The base path -/

/-- Every probe of a search in order is the probe of one of the combinations. -/
theorem probeInOrder_mem (s : Search) (l : List Candidate) :
    (∀ p ∈ (probeInOrder s l).1, ∃ c ∈ l, p = c.probe s) ∧
    (∀ w, (probeInOrder s l).2 = some w → ∃ c ∈ l, w = c.result s) := by
  induction l with
  | nil => simp [probeInOrder]
  | cons c rest ih =>
    by_cases h : c.hasHistory s = true
    · simp [probeInOrder, h]
    · simp only [Bool.not_eq_true] at h
      simp only [probeInOrder, h, Bool.false_eq_true, if_false, List.mem_cons]
      constructor
      · intro p hp
        rcases hp with hp | hp
        · exact ⟨c, Or.inl rfl, hp⟩
        · obtain ⟨c', hc', hpc⟩ := ih.1 p hp
          exact ⟨c', Or.inr hc', hpc⟩
      · intro w hw
        obtain ⟨c', hc', hwc⟩ := ih.2 w hw
        exact ⟨c', Or.inr hc', hwc⟩

/-- Claim C9: for every address index `a` in `0..2` and every `bitgoKeyIndex` `k` in
`101..119`, and for each of the paths that `tryNewKeys` and `tryOldKeys` set (the new-scheme
path and the three legacy paths), `path.substring(0, path.length - 4)` is the path with
exactly its final two `/`-separated components removed; every probe of `findBaseAddress` is
the probe of one of these combinations and every result stores the probed paths cut in this
way; `m/0/0/0/1` gives `m/0/0` and `m/100'/101/0/2` gives `m/100'/101`. -/
theorem basePath_drops_two_components :
    (∀ a k, a ≤ 2 → 101 ≤ k → k ≤ 119 →
      basePath (newPath a) = dropLastTwoComponents (newPath a) ∧
      basePath (oldUserPath a) = dropLastTwoComponents (oldUserPath a) ∧
      basePath (oldBackupPath a) = dropLastTwoComponents (oldBackupPath a) ∧
      basePath (oldBitgoPath k a) = dropLastTwoComponents (oldBitgoPath k a)) ∧
    (∀ (s : Search), ∀ p ∈ (findBaseAddress s).1,
      ∃ c ∈ newCandidates ++ legacyCandidates, p = c.probe s) ∧
    (∀ (s : Search) (w : WalletAddress), (findBaseAddress s).2 = .resolved w →
      ∃ c ∈ newCandidates ++ legacyCandidates,
        w.keys.map (fun k => k.path) =
          [dropLastTwoComponents c.user, dropLastTwoComponents c.backup,
           dropLastTwoComponents c.bitgo]) ∧
    basePath "m/0/0/0/1" = "m/0/0" ∧ basePath "m/100'/101/0/2" = "m/100'/101" ∧
    dropLastTwoComponents "m/0/0/0/1" = "m/0/0" ∧
    dropLastTwoComponents "m/100'/101/0/2" = "m/100'/101" := by
  have hall : ∀ c ∈ newCandidates ++ legacyCandidates,
      basePath c.user = dropLastTwoComponents c.user ∧
      basePath c.backup = dropLastTwoComponents c.backup ∧
      basePath c.bitgo = dropLastTwoComponents c.bitgo := by decide
  refine ⟨?_, ?_, ?_, by decide, by decide, by decide, by decide⟩
  · intro a k ha hk1 hk2
    have hnew : newCandidate a ∈ newCandidates ++ legacyCandidates := by
      refine List.mem_append.mpr (Or.inl ?_)
      interval_cases a <;> decide
    have hold : legacyCandidate (k, a) ∈ newCandidates ++ legacyCandidates :=
      List.mem_append.mpr (Or.inr (List.mem_map.mpr
        ⟨(k, a), (mem_legacyIndices k a).mpr ⟨hk1, hk2, ha⟩, rfl⟩))
    exact ⟨(hall _ hnew).1, (hall _ hold).1, (hall _ hold).2.1, (hall _ hold).2.2⟩
  · intro s p hp
    rw [findBaseAddress_eq] at hp
    have hn := (probeInOrder_mem s newCandidates).1
    have ho := (probeInOrder_mem s legacyCandidates).1
    have hin : p ∈ (probeInOrder s newCandidates).1 ∨ p ∈ (probeInOrder s legacyCandidates).1 := by
      cases h1 : (probeInOrder s newCandidates).2 with
      | some w => rw [h1] at hp; exact Or.inl hp
      | none =>
        rw [h1] at hp
        cases h2 : (probeInOrder s legacyCandidates).2 with
        | some w => rw [h2] at hp; exact List.mem_append.mp hp
        | none => rw [h2] at hp; exact List.mem_append.mp hp
    rcases hin with h | h
    · obtain ⟨c, hc, rfl⟩ := hn p h
      exact ⟨c, List.mem_append.mpr (Or.inl hc), rfl⟩
    · obtain ⟨c, hc, rfl⟩ := ho p h
      exact ⟨c, List.mem_append.mpr (Or.inr hc), rfl⟩
  · intro s w hw
    rw [findBaseAddress_eq] at hw
    have hn := (probeInOrder_mem s newCandidates).2
    have ho := (probeInOrder_mem s legacyCandidates).2
    have hres : ∃ c ∈ newCandidates ++ legacyCandidates, w = c.result s := by
      cases h1 : (probeInOrder s newCandidates).2 with
      | some w' =>
        rw [h1] at hw
        simp only [BaseAddressOutcome.resolved.injEq] at hw
        obtain ⟨c, hc, rfl⟩ := hn w' h1
        exact ⟨c, List.mem_append.mpr (Or.inl hc), hw.symm⟩
      | none =>
        rw [h1] at hw
        cases h2 : (probeInOrder s legacyCandidates).2 with
        | some w' =>
          rw [h2] at hw
          simp only [BaseAddressOutcome.resolved.injEq] at hw
          obtain ⟨c, hc, rfl⟩ := ho w' h2
          exact ⟨c, List.mem_append.mpr (Or.inr hc), hw.symm⟩
        | none => rw [h2] at hw; simp at hw
    obtain ⟨c, hc, rfl⟩ := hres
    obtain ⟨h1, h2, h3⟩ := hall c hc
    exact ⟨c, hc, by simp [Candidate.result, h1, h2, h3]⟩

/-- The base path of the legacy bitgo path for `(119, 2)`: `m/119/0/2` gives `m/119`. -/
theorem basePath_drops_two_components_witness :
    basePath (oldBitgoPath 119 2) = dropLastTwoComponents (oldBitgoPath 119 2) :=
  (basePath_drops_two_components.1 2 119 (by decide) (by decide) (by decide)).2.2.2

/-! ## The signing calls of `createTransaction` -/

/-- The calls of a list all returned when those of each of its two parts did. -/
theorem allReturned_append (tl : TxLib) (xs ys : List SignCall) : ∀ earlier : List SignCall,
    allReturned tl earlier (xs ++ ys)
      = (allReturned tl earlier xs && allReturned tl (earlier ++ xs) ys) := by
  induction xs with
  | nil => intro earlier; simp [allReturned]
  | cons x xs ih =>
    intro earlier
    have e : earlier ++ x :: xs = earlier ++ [x] ++ xs := by simp
    rw [List.cons_append, allReturned, allReturned, ih, e, Bool.and_assoc]

/-- The calls of a list all returned exactly when each call returned after the calls before
it. -/
theorem allReturned_iff (tl : TxLib) (xs : List SignCall) : ∀ earlier : List SignCall,
    allReturned tl earlier xs = true ↔
      ∀ pre c post, xs = pre ++ c :: post → tl.signSucceeds (earlier ++ pre) c = true := by
  induction xs with
  | nil =>
    intro earlier
    simp only [allReturned, true_iff]
    intro pre c post h
    cases pre <;> simp at h
  | cons x xs ih =>
    intro earlier
    simp only [allReturned, Bool.and_eq_true, ih]
    constructor
    · rintro ⟨h0, h1⟩ pre c post h
      cases pre with
      | nil =>
        simp only [List.nil_append, List.cons.injEq] at h
        rw [List.append_nil, ← h.1]; exact h0
      | cons p pre =>
        simp only [List.cons_append, List.cons.injEq] at h
        have := h1 pre c post h.2
        rw [h.1] at this
        simpa using this
    · intro h
      refine ⟨by simpa using h [] x xs rfl, ?_⟩
      intro pre c post hx
      have := h (x :: pre) c post (by rw [hx]; rfl)
      simpa using this

/-- The calls of the signing loop extend the earlier calls within the expected sequence, and
are the whole expected sequence when no `try` block fails, in which case every input has its
two keys. -/
theorem signInputs_calls (tl : TxLib) (unspents : List Unspent) :
    ∀ (index : Nat) (calls : List SignCall),
      (∃ rest, (signInputs tl unspents index calls).1 ++ rest
        = calls ++ expectedSignCalls unspents index) ∧
      ((signInputs tl unspents index calls).2 = none →
        (signInputs tl unspents index calls).1 = calls ++ expectedSignCalls unspents index ∧
        ∀ u ∈ unspents, 2 ≤ u.keys.length) := by
  induction unspents with
  | nil => intro index calls; simp [signInputs, expectedSignCalls]
  | cons u rest ih =>
    intro index calls
    by_cases hr : tl.redeemScriptAccepted u = true
    · obtain ⟨keys, rs, th, v, oi, sh⟩ := u
      rcases keys with _ | ⟨k0, _ | ⟨k1, more⟩⟩
      · simp [signInputs, expectedSignCalls, hr]
      · by_cases h0 : tl.signSucceeds calls ⟨index, k0.key, rs⟩ = true
        · simp [signInputs, expectedSignCalls, hr, h0]
        · simp [signInputs, expectedSignCalls, hr, h0]
      · by_cases h0 : tl.signSucceeds calls ⟨index, k0.key, rs⟩ = true
        · by_cases h1 :
              tl.signSucceeds (calls ++ [⟨index, k0.key, rs⟩]) ⟨index, k1.key, rs⟩ = true
          · obtain ⟨⟨r, hr'⟩, hok⟩ :=
              ih (index + 1) (calls ++ [⟨index, k0.key, rs⟩, ⟨index, k1.key, rs⟩])
            simp only [signInputs, expectedSignCalls, List.getElem?_cons_zero, hr, h0, if_true,
              List.getElem?_cons_succ, h1, List.take_succ_cons, List.take_zero, List.map_cons,
              List.map_nil]
            constructor
            · exact ⟨r, by rw [hr']; simp⟩
            · intro hnone
              obtain ⟨e1, e2⟩ := hok hnone
              refine ⟨by rw [e1]; simp, ?_⟩
              intro u hu
              rcases List.mem_cons.mp hu with rfl | hu
              · simp
              · exact e2 u hu
          · simp [signInputs, expectedSignCalls, hr, h0, h1]
        · simp [signInputs, expectedSignCalls, hr, h0]
    · simp [signInputs, hr]

/-- The signing loop stops at the first call that throws: of the calls it adds, every one
but the last returned, and all of them returned when no `try` block fails. -/
theorem signInputs_returned (tl : TxLib) (unspents : List Unspent) :
    ∀ (index : Nat) (calls : List SignCall),
      ∃ made, (signInputs tl unspents index calls).1 = calls ++ made ∧
        allReturned tl calls made.dropLast = true ∧
        ((signInputs tl unspents index calls).2 = none → allReturned tl calls made = true) := by
  induction unspents with
  | nil => intro index calls; exact ⟨[], by simp [signInputs], rfl, fun _ => rfl⟩
  | cons u rest ih =>
    intro index calls
    by_cases hr : tl.redeemScriptAccepted u = true
    · obtain ⟨keys, rs, th, v, oi, sh⟩ := u
      rcases keys with _ | ⟨k0, _ | ⟨k1, more⟩⟩
      · exact ⟨[], by simp [signInputs, hr], rfl, by simp [signInputs, hr]⟩
      · by_cases h0 : tl.signSucceeds calls ⟨index, k0.key, rs⟩ = true
        · exact ⟨[⟨index, k0.key, rs⟩], by simp [signInputs, hr, h0], rfl,
            by simp [signInputs, hr, h0]⟩
        · exact ⟨[⟨index, k0.key, rs⟩], by simp [signInputs, hr, h0], rfl,
            by simp [signInputs, hr, h0]⟩
      · by_cases h0 : tl.signSucceeds calls ⟨index, k0.key, rs⟩ = true
        · by_cases h1 :
              tl.signSucceeds (calls ++ [⟨index, k0.key, rs⟩]) ⟨index, k1.key, rs⟩ = true
          · obtain ⟨made, hm, hd, hall⟩ :=
              ih (index + 1) (calls ++ [⟨index, k0.key, rs⟩, ⟨index, k1.key, rs⟩])
            have hstep : signInputs tl (⟨k0 :: k1 :: more, rs, th, v, oi, sh⟩ :: rest) index calls
                = signInputs tl rest (index + 1)
                    (calls ++ [⟨index, k0.key, rs⟩, ⟨index, k1.key, rs⟩]) := by
              simp [signInputs, hr, h0, h1]
            rw [hstep]
            have h2 : allReturned tl calls [⟨index, k0.key, rs⟩, ⟨index, k1.key, rs⟩] = true := by
              simp [allReturned, h0, h1]
            refine ⟨[⟨index, k0.key, rs⟩, ⟨index, k1.key, rs⟩] ++ made,
              by rw [hm, List.append_assoc], ?_, ?_⟩
            · cases made with
              | nil => simp [allReturned, h0]
              | cons c cs =>
                rw [List.dropLast_append_of_ne_nil _ (by simp), allReturned_append, h2]
                simpa using hd
            · intro hnone
              rw [allReturned_append, h2]
              simpa using hall hnone
          · exact ⟨[⟨index, k0.key, rs⟩, ⟨index, k1.key, rs⟩],
              by simp [signInputs, hr, h0, h1], by simp [allReturned, h0],
              by simp [signInputs, hr, h0, h1]⟩
        · exact ⟨[⟨index, k0.key, rs⟩], by simp [signInputs, hr, h0], rfl,
            by simp [signInputs, hr, h0]⟩
    · exact ⟨[], by simp [signInputs, hr], rfl, by simp [signInputs, hr]⟩

/-- The signing loop makes all the expected calls and reports no error when every redeem
script is accepted, every input has its two keys and every expected call returns. -/
theorem signInputs_complete (tl : TxLib) (unspents : List Unspent) :
    ∀ (index : Nat) (calls : List SignCall),
      (∀ u ∈ unspents, tl.redeemScriptAccepted u = true ∧ 2 ≤ u.keys.length) →
      allReturned tl calls (expectedSignCalls unspents index) = true →
      signInputs tl unspents index calls = (calls ++ expectedSignCalls unspents index, none) := by
  induction unspents with
  | nil => intro index calls _ _; simp [signInputs, expectedSignCalls]
  | cons u rest ih =>
    intro index calls hu hall
    obtain ⟨hr, hk⟩ := hu u (List.mem_cons_self _ _)
    obtain ⟨keys, rs, th, v, oi, sh⟩ := u
    rcases keys with _ | ⟨k0, _ | ⟨k1, more⟩⟩
    · simp at hk
    · simp at hk
    · simp only [expectedSignCalls, List.take_succ_cons, List.take_zero, List.map_cons,
        List.map_nil, List.cons_append, List.nil_append, allReturned, Bool.and_eq_true,
        List.append_assoc, List.singleton_append] at hall
      obtain ⟨h0, h1, h2⟩ := hall
      have := ih (index + 1) (calls ++ [⟨index, k0.key, rs⟩, ⟨index, k1.key, rs⟩])
        (fun w hw => hu w (List.mem_cons_of_mem _ hw)) (by simpa using h2)
      simp only [signInputs, expectedSignCalls, List.getElem?_cons_zero, hr, h0, if_true,
        List.getElem?_cons_succ, h1, List.take_succ_cons, List.take_zero, List.map_cons,
        List.map_nil, this]
      simp

/-- Every expected signing call of input `index + i` passes the user key `keys[0]` or the
backup key `keys[1]` of that input, with the redeem script of that input. -/
theorem expectedSignCalls_keys (unspents : List Unspent) :
    ∀ (index : Nat), ∀ c ∈ expectedSignCalls unspents index,
      ∃ i u, c.index = index + i ∧ unspents[i]? = some u ∧ c.redeemScript = u.redeemScript ∧
        ∃ k, (u.keys[0]? = some k ∨ u.keys[1]? = some k) ∧ c.key = k.key := by
  induction unspents with
  | nil => intro index c hc; simp [expectedSignCalls] at hc
  | cons u rest ih =>
    intro index c hc
    simp only [expectedSignCalls, List.mem_append, List.mem_map] at hc
    rcases hc with ⟨k, hk, rfl⟩ | hc
    · refine ⟨0, u, rfl, by simp, rfl, k, ?_, rfl⟩
      rcases hku : u.keys with _ | ⟨k0, _ | ⟨k1, more⟩⟩
      · rw [hku] at hk; simp at hk
      · rw [hku] at hk; simp at hk; left; simp [hk]
      · rw [hku] at hk
        simp at hk
        rcases hk with rfl | rfl
        · left; simp
        · right; simp
    · obtain ⟨i, u', h1, h2, h3, h4⟩ := ih (index + 1) c hc
      exact ⟨i + 1, u', by omega, by simpa using h2, h3, h4⟩

/-- When every input has its two keys the expected sequence has two calls per input. -/
theorem expectedSignCalls_length (unspents : List Unspent) :
    ∀ (index : Nat), (∀ u ∈ unspents, 2 ≤ u.keys.length) →
      (expectedSignCalls unspents index).length = 2 * unspents.length := by
  induction unspents with
  | nil => intro index _; rfl
  | cons u rest ih =>
    intro index h
    have hu := h u (List.mem_cons_self _ _)
    have := ih (index + 1) (fun v hv => h v (List.mem_cons_of_mem _ hv))
    simp only [expectedSignCalls, List.length_append, List.length_map, List.length_take,
      List.length_cons, this]
    omega

/-- The calls of `createTransaction` are those of the signing loop, or none when the loop is
not reached; a transaction is built only after a signing loop without error. -/
theorem createTransaction_calls (tl : TxLib) (unspents : List Unspent) :
    ((createTransaction tl unspents).1 = [] ∨
      (createTransaction tl unspents).1 = (signInputs tl unspents 0 []).1) ∧
    (∀ built, (createTransaction tl unspents).2 = .ok built →
      (createTransaction tl unspents).1 = (signInputs tl unspents 0 []).1 ∧
      (signInputs tl unspents 0 []).2 = none) := by
  obtain ⟨c1, c2⟩ := createTransaction_cases tl unspents
  cases ha : unspents.all tl.inputAccepted with
  | false => rw [c1 ha]; simp
  | true =>
    obtain ⟨c3, c4⟩ := c2 ha
    cases hg : Num.gt (approximateFee (approximateSize (tl.serializedLength unspents)
        unspents.length)) (totalValue unspents) with
    | true => rw [c3 hg]; simp
    | false =>
      obtain ⟨c5, c6⟩ := c4 hg
      cases ho : tl.outputAccepted unspents (Num.sub (totalValue unspents)
          (approximateFee (approximateSize (tl.serializedLength unspents) unspents.length))) with
      | false => rw [c5 ho]; simp
      | true =>
        obtain ⟨c7, c8⟩ := c6 ho
        cases hs : (signInputs tl unspents 0 []).2 with
        | some e => rw [c7 e hs]; simp
        | none =>
          obtain ⟨c9, c10⟩ := c8 hs
          cases hb : tl.buildSucceeds unspents (signInputs tl unspents 0 []).1 with
          | false => rw [c10 hb]; simp
          | true => rw [c9 hb]; simp

/-- Claim C6, refuted as stated: with one unspent output of 5000 satoshi the fee check fails
and no signing call is made; with one unspent output of 20000 satoshi and a signer that
throws, only the call with the user key is made.  In both cases the input does not get its
two calls. -/
theorem signing_calls_counterexample :
    createTransaction exampleTxLib [exampleUnspent 3 5000] = ([], .error .insufficientFunds) ∧
    createTransaction failingTxLib [exampleUnspent 3 20000] =
      ([{ index := 0, key := { root := "xprv-user", path := "m/0/0/0/3" },
          redeemScript := [0x52, 0x53, 0xae] }], .error .signatureFailureUserKey) ∧
    expectedSignCalls [exampleUnspent 3 5000] 0 =
      [{ index := 0, key := { root := "xprv-user", path := "m/0/0/0/3" },
          redeemScript := [0x52, 0x53, 0xae] },
       { index := 0, key := { root := "xprv-backup", path := "m/0/0/0/3" },
          redeemScript := [0x52, 0x53, 0xae] }] ∧
    (createTransaction exampleTxLib [exampleUnspent 3 5000]).1
      ≠ expectedSignCalls [exampleUnspent 3 5000] 0 ∧
    (createTransaction failingTxLib [exampleUnspent 3 20000]).1
      ≠ expectedSignCalls [exampleUnspent 3 20000] 0 := by
  refine ⟨rfl, rfl, by decide, by decide, by decide⟩

/-- Claim C6, amended: for every list of `n` unspents, whenever `createTransaction` builds
the transaction the signing calls are exactly two per input `i` in `0..n-1`, first with the
user key (`keys[0]`) and then with the backup key (`keys[1]`) of `unspents[i]`, each against
the redeem script of `unspents[i]`, and all of them returned.  In every run the calls made are
an initial part of that sequence: none when an input is rejected or the fee check fails, and
none after a signing call that throws, since every call that is followed by another call
returned.  The transaction is built, with all these calls, when the library accepts the
inputs, the output, the redeem scripts and the build, the fee does not exceed the total,
every input has its two keys and every call of the sequence returns.  Each call of the
sequence passes `keys[0]` or `keys[1]` of its input: the bitgo key (`keys[2]`) is never
passed. -/
theorem createTransaction_signing_calls (tl : TxLib) (unspents : List Unspent) :
    (∀ built, (createTransaction tl unspents).2 = .ok built →
      (createTransaction tl unspents).1 = expectedSignCalls unspents 0 ∧
      (createTransaction tl unspents).1.length = 2 * unspents.length ∧
      (∀ u ∈ unspents, 2 ≤ u.keys.length) ∧
      (∀ pre c post, (createTransaction tl unspents).1 = pre ++ c :: post →
        tl.signSucceeds pre c = true)) ∧
    (∃ rest, (createTransaction tl unspents).1 ++ rest = expectedSignCalls unspents 0) ∧
    (∀ pre c post, (createTransaction tl unspents).1 = pre ++ c :: post → post ≠ [] →
      tl.signSucceeds pre c = true) ∧
    (unspents.all tl.inputAccepted = false → (createTransaction tl unspents).1 = []) ∧
    ((totalValue unspents).toRat <
        (approximateFee (approximateSize (tl.serializedLength unspents) unspents.length)).toRat →
      (createTransaction tl unspents).1 = []) ∧
    (unspents.all tl.inputAccepted = true →
      ¬ (totalValue unspents).toRat <
        (approximateFee (approximateSize (tl.serializedLength unspents) unspents.length)).toRat →
      tl.outputAccepted unspents (Num.sub (totalValue unspents)
        (approximateFee (approximateSize (tl.serializedLength unspents) unspents.length))) = true →
      (∀ u ∈ unspents, tl.redeemScriptAccepted u = true ∧ 2 ≤ u.keys.length) →
      (∀ pre c post, expectedSignCalls unspents 0 = pre ++ c :: post →
        tl.signSucceeds pre c = true) →
      tl.buildSucceeds unspents (expectedSignCalls unspents 0) = true →
      createTransaction tl unspents =
        (expectedSignCalls unspents 0,
          .ok { inputs := unspents,
                outputValue := Num.sub (totalValue unspents)
                  (approximateFee (approximateSize (tl.serializedLength unspents)
                    unspents.length)) })) ∧
    (∀ c ∈ expectedSignCalls unspents 0,
      ∃ u, unspents[c.index]? = some u ∧ c.redeemScript = u.redeemScript ∧
        ∃ k, (u.keys[0]? = some k ∨ u.keys[1]? = some k) ∧ c.key = k.key) := by
  obtain ⟨⟨r, hr⟩, hok⟩ := signInputs_calls tl unspents 0 []
  simp only [List.nil_append] at hr hok
  obtain ⟨made, hm, hd, hall⟩ := signInputs_returned tl unspents 0 []
  simp only [List.nil_append] at hm
  obtain ⟨hcalls, hbuilt⟩ := createTransaction_calls tl unspents
  obtain ⟨c1, c2⟩ := createTransaction_cases tl unspents
  refine ⟨?_, ?_, ?_, ?_, ?_, ?_, ?_⟩
  · intro built hb
    obtain ⟨e0, hnone⟩ := hbuilt built hb
    obtain ⟨e1, e2⟩ := hok hnone
    refine ⟨by rw [e0, e1], by rw [e0, e1]; exact expectedSignCalls_length unspents 0 e2, e2, ?_⟩
    intro pre c post hc
    have h := (allReturned_iff tl made []).mp (hall hnone) pre c post (by rw [← hm, ← e0, hc])
    simpa using h
  · rcases hcalls with h | h
    · rw [h]; exact ⟨_, rfl⟩
    · rw [h]; exact ⟨r, hr⟩
  · intro pre c post hc hpost
    rcases hcalls with h | h
    · rw [h] at hc; cases pre <;> simp at hc
    · have hmade : made = pre ++ c :: post := by rw [← hm, ← h, hc]
      have hdrop : made.dropLast = pre ++ c :: post.dropLast := by
        rw [hmade, List.dropLast_append_of_ne_nil _ (by simp),
          List.dropLast_cons_of_ne_nil hpost]
      have := (allReturned_iff tl made.dropLast []).mp hd pre c post.dropLast hdrop
      simpa using this
  · intro ha
    rw [c1 ha]
  · intro hlt
    cases ha : unspents.all tl.inputAccepted with
    | false => rw [c1 ha]
    | true => rw [(c2 ha).1 ((Num.gt_iff _ _).mpr hlt)]
  · intro ha hn ho hu hs hb
    have hg : Num.gt (approximateFee (approximateSize (tl.serializedLength unspents)
        unspents.length)) (totalValue unspents) = false := by
      cases h : Num.gt (approximateFee (approximateSize (tl.serializedLength unspents)
          unspents.length)) (totalValue unspents) with
      | false => rfl
      | true => exact absurd ((Num.gt_iff _ _).mp h) hn
    have hsign := signInputs_complete tl unspents 0 [] hu
      ((allReturned_iff tl _ []).mpr (by simpa using hs))
    simp only [List.nil_append] at hsign
    have h2 : (signInputs tl unspents 0 []).2 = none := by rw [hsign]
    have h1 : (signInputs tl unspents 0 []).1 = expectedSignCalls unspents 0 := by rw [hsign]
    have := ((((c2 ha).2 hg).2 ho).2 h2).1 (by rw [h1]; exact hb)
    rw [this, h1]
  · intro c hc
    obtain ⟨i, u, h1, h2, h3, h4⟩ := expectedSignCalls_keys unspents 0 c hc
    exact ⟨u, by rw [h1]; simpa using h2, h3, h4⟩

/-- The amended signing calls on two unspent outputs of 50000 satoshi each: the transaction
is built after four calls, two per input. -/
theorem createTransaction_signing_calls_witness :
    (createTransaction exampleTxLib [exampleUnspent 3 50000, exampleUnspent 4 50000]).1
      = expectedSignCalls [exampleUnspent 3 50000, exampleUnspent 4 50000] 0 ∧
    (createTransaction exampleTxLib [exampleUnspent 3 50000, exampleUnspent 4 50000]).1.length
      = 2 * [exampleUnspent 3 50000, exampleUnspent 4 50000].length :=
  ⟨((createTransaction_signing_calls exampleTxLib
      [exampleUnspent 3 50000, exampleUnspent 4 50000]).1 _ rfl).1,
   ((createTransaction_signing_calls exampleTxLib
      [exampleUnspent 3 50000, exampleUnspent 4 50000]).1 _ rfl).2.1⟩

/-! ## The failures of `findUnspents` -/

/-- An answer without unspent outputs leaves the state of `findUnspents` unchanged. -/
theorem unspentsCallback_empty (subAddresses : List (String × SubAddress))
    (unspentsOf : String → List OracleUnspent) (st : UnspentsState) (address : String)
    (h : unspentsOf address = []) :
    unspentsCallback subAddresses unspentsOf st address = st := by
  unfold unspentsCallback
  split_ifs
  · rfl
  · rw [h]; cases List.lookup address subAddresses <;> rfl

/-- For a non-empty map `subAddresses` whose addresses all have no unspent output,
`findUnspents` throws nothing and never resolves `deferred`, in whatever order the answers
arrive. -/
theorem findUnspents_all_empty (subAddresses : List (String × SubAddress))
    (unspentsOf : String → List OracleUnspent) (arrival : List String)
    (hne : subAddresses ≠ []) (h : ∀ address, unspentsOf address = []) :
    findUnspents subAddresses unspentsOf arrival
      = .ok { unspents := [], resolved := false, thrown := false } := by
  have hlen : ¬ (subAddresses.map (fun e => e.1)).length = 0 := by
    cases subAddresses with
    | nil => exact absurd rfl hne
    | cons e rest => simp
  simp only [findUnspents, hlen, if_false]
  congr 1
  induction arrival with
  | nil => rfl
  | cons a rest ih =>
    rw [List.foldl_cons, unspentsCallback_empty _ _ _ _ (h a)]
    exact ih

/-- Claim C7 on the code: for an empty map `subAddresses` the error 'could not find any
unspents for this address' is thrown; for one funded sub-address for which the oracle lists
no unspent output, the only answer is handled without any error and `deferred` is left
unresolved, with the list `unspents` empty. -/
theorem findUnspents_empty_unspents :
    findUnspents [] (fun _ => []) [] = .error .couldNotFindUnspents ∧
    findUnspents exampleSubAddresses (fun _ => []) [subAddressString unusedScan 0 3]
      = .ok { unspents := [], resolved := false, thrown := false } :=
  ⟨rfl, findUnspents_all_empty _ _ _ (by simp [exampleSubAddresses]) (fun _ => rfl)⟩

/-! ## The threshold of `util.p2shMultisigOutputScript` -/

/-- Claim C10 on the code: for every `m` the script that gets hashed is the 2 of `n` redeem
script; for `m = 3` and three public keys the result is the script hash output of the 2 of 3
redeem script and differs from the one of the 3 of 3 redeem script. -/
theorem p2shMultisigOutputScript_threshold :
    (∀ (lib : Lib) (m : Nat) (pubKeys : List Bytes),
      util.p2shMultisigOutputScript lib m pubKeys
        = lib.scriptHashOutput (lib.ripemd160 (lib.sha256 (lib.multisigOutput 2 pubKeys)))) ∧
    exampleLib.multisigOutput 3 examplePubKeys = [0x53, 1, 1, 1, 2, 1, 3, 0x53, 0xae] ∧
    exampleLib.multisigOutput 2 examplePubKeys = [0x52, 1, 1, 1, 2, 1, 3, 0x53, 0xae] ∧
    util.p2shMultisigOutputScript exampleLib 3 examplePubKeys
      = util.p2shMultisigOutputScriptDoc exampleLib 2 examplePubKeys ∧
    util.p2shMultisigOutputScript exampleLib 3 examplePubKeys
      ≠ util.p2shMultisigOutputScriptDoc exampleLib 3 examplePubKeys := by
  refine ⟨fun _ _ _ => rfl, by decide, by decide, rfl, by decide⟩

/-! ## The termination of `findSubAddresses` -/

/-- The chain of calls cut after `a + b` calls is the chain cut after `a` calls, continued
for `b` calls. -/
theorem scanSteps_add (sc : Scan) (a b : Nat) : ∀ st : ScanState,
    scanSteps sc (a + b) st = scanSteps sc b (scanSteps sc a st) := by
  induction a with
  | zero => intro st; simp [scanSteps]
  | succ a ih =>
    intro st
    have e : a + 1 + b = (a + b) + 1 := by omega
    rw [e, scanSteps, scanSteps]
    by_cases h : st.resolved = true
    · simp only [h, if_true]
      exact (scanSteps_resolved sc st h b).symm
    · simp only [h]
      exact ih (tryAddress sc st)

/-- Every call of `tryAddress` logs exactly one line. -/
theorem tryAddress_tried (sc : Scan) (st : ScanState) :
    (tryAddress sc st).tried = st.tried ++ [(st.keyIndex, st.addressIndex)] := by
  simp only [tryAddress]; split_ifs <;> rfl

/-- A chain of at most `fuel` calls makes at most `fuel` probes. -/
theorem scanSteps_tried_length (sc : Scan) (fuel : Nat) : ∀ st : ScanState,
    (scanSteps sc fuel st).tried.length ≤ st.tried.length + fuel := by
  induction fuel with
  | zero => intro st; simp [scanSteps]
  | succ fuel ih =>
    intro st
    rw [scanSteps]
    by_cases h : st.resolved = true
    · simp only [h, if_true]; omega
    · simp only [h]
      have := ih (tryAddress sc st)
      rw [tryAddress_tried] at this
      simp only [List.length_append, List.length_singleton] at this
      simp only [Bool.false_eq_true, if_false]
      omega

/-- The scan of one chain: started at index 0 of chain `k`, with no transaction and no
positive balance from index `N` on, the chain of calls reaches within `N + 20` calls a state
produced by a probe of chain `k` that found no positive balance and left the counter at 20 or
more. -/
theorem scan_chain_leaves (sc : Scan) (k N : Nat) (Q : ScanState → Prop)
    (hz : ∀ i, N ≤ i → (sc.info (subAddressString sc k i)).nb_txs = 0 ∧
      (sc.info (subAddressString sc k i)).balance ≤ 0)
    (hQ : ∀ st : ScanState, st.keyIndex = k →
      (sc.info (subAddressString sc st.keyIndex st.addressIndex)).balance ≤ 0 →
      MAX_SEQUENTIAL_ADDRESSES_WITHOUT_TXS ≤
        (if (sc.info (subAddressString sc st.keyIndex st.addressIndex)).nb_txs = 0
          then st.numSequentialAddressesWithoutTxs + 1 else 0) →
      Q (tryAddress sc st))
    (st0 : ScanState) (hk0 : st0.keyIndex = k) (hi0 : st0.addressIndex = 0)
    (hr0 : st0.resolved = false) :
    ∃ t, t ≤ N + 20 ∧ Q (scanSteps sc t st0) := by
  have inv : ∀ j, j ≤ N + 19 →
      (∃ t, t ≤ j ∧ Q (scanSteps sc t st0)) ∨
      ((scanSteps sc j st0).keyIndex = k ∧ (scanSteps sc j st0).addressIndex = j ∧
       (scanSteps sc j st0).resolved = false ∧
       j ≤ (scanSteps sc j st0).numSequentialAddressesWithoutTxs + N) := by
    intro j
    induction j with
    | zero => intro _; right; exact ⟨hk0, hi0, hr0, by omega⟩
    | succ j ih =>
      intro hj
      rcases ih (by omega) with ⟨t, ht, hq⟩ | ⟨hk, hi, hr, hc⟩
      · exact Or.inl ⟨t, by omega, hq⟩
      · have hstep : scanSteps sc (j + 1) st0 = tryAddress sc (scanSteps sc j st0) := by
          rw [scanSteps_succ, hr]; simp
        generalize scanSteps sc j st0 = st at hk hi hr hc hstep
        have hcount : j + 1 ≤
            (if (sc.info (subAddressString sc st.keyIndex st.addressIndex)).nb_txs = 0
              then st.numSequentialAddressesWithoutTxs + 1 else 0) + N := by
          by_cases hN : N ≤ j
          · rw [hk, hi, (hz j hN).1]; simp; omega
          · omega
        by_cases hb : 0 < (sc.info (subAddressString sc st.keyIndex st.addressIndex)).balance
        · right
          obtain ⟨h1, h2, h3, h4⟩ := tryAddress_positive_balance sc st hb
          rw [hstep]
          exact ⟨by rw [h1, hk], by rw [h2, hi], h4, by rw [h3]; exact hcount⟩
        · by_cases hn : MAX_SEQUENTIAL_ADDRESSES_WITHOUT_TXS ≤
              (if (sc.info (subAddressString sc st.keyIndex st.addressIndex)).nb_txs = 0
                then st.numSequentialAddressesWithoutTxs + 1 else 0)
          · left
            exact ⟨j + 1, le_refl _, by rw [hstep]; exact hQ st hk (by omega) hn⟩
          · right
            rw [hstep]
            have hne : (tryAddress sc st) =
                { keyIndex := st.keyIndex, addressIndex := st.addressIndex + 1,
                  numSequentialAddressesWithoutTxs :=
                    (if (sc.info (subAddressString sc st.keyIndex st.addressIndex)).nb_txs = 0
                      then st.numSequentialAddressesWithoutTxs + 1 else 0),
                  subAddresses := st.subAddresses,
                  tried := st.tried ++ [(st.keyIndex, st.addressIndex)], resolved := false } := by
              simp only [tryAddress, hb, if_false, ge_iff_le, hn]
            rw [hne]
            exact ⟨hk, by simp [hi], rfl, hcount⟩
  rcases inv (N + 19) (le_refl _) with ⟨t, ht, hq⟩ | ⟨hk, hi, hr, hc⟩
  · exact ⟨t, by omega, hq⟩
  · refine ⟨N + 20, le_refl _, ?_⟩
    have hstep : scanSteps sc (N + 20) st0 = tryAddress sc (scanSteps sc (N + 19) st0) := by
      rw [show N + 20 = (N + 19) + 1 from rfl, scanSteps_succ, hr]; simp
    generalize scanSteps sc (N + 19) st0 = st at hk hi hr hc hstep
    obtain ⟨hnb, hbal⟩ := hz (N + 19) (by omega)
    rw [hstep]
    refine hQ st hk (by rw [hk, hi]; exact hbal) ?_
    rw [hk, hi, hnb]
    simp [MAX_SEQUENTIAL_ADDRESSES_WITHOUT_TXS]; omega

/-- Termination with a bound: when on both chains no address from index `N` on has a
transaction or a positive balance, `deferred` is resolved on chain 1 within `2 * (N + 20)`
calls of `tryAddress`. -/
theorem scanSteps_resolves_within (sc : Scan) (N : Nat)
    (hz : ∀ k, k ≤ 1 → ∀ i, N ≤ i → (sc.info (subAddressString sc k i)).nb_txs = 0 ∧
      (sc.info (subAddressString sc k i)).balance ≤ 0) :
    ∃ fuel, fuel ≤ 2 * (N + 20) ∧ (scanSteps sc fuel scanStart).resolved = true ∧
      (scanSteps sc fuel scanStart).keyIndex = 1 := by
  obtain ⟨t0, ht0, h1, h2, h3⟩ := scan_chain_leaves sc 0 N
    (fun st => st.keyIndex = 1 ∧ st.addressIndex = 0 ∧ st.resolved = false)
    (hz 0 (by omega))
    (fun st hk hb hn => by
      rw [(tryAddress_gap sc st hb hn).1 hk]
      exact ⟨rfl, rfl, rfl⟩)
    scanStart rfl rfl rfl
  obtain ⟨t1, ht1, h4, h5⟩ := scan_chain_leaves sc 1 N
    (fun st => st.resolved = true ∧ st.keyIndex = 1)
    (hz 1 (le_refl _))
    (fun st hk hb hn => by
      have hb' : ¬ 0 < (sc.info (subAddressString sc st.keyIndex st.addressIndex)).balance := by
        omega
      have hk0 : st.keyIndex ≠ 0 := by omega
      refine ⟨((tryAddress_gap sc st hb hn).2 hk0).1, ?_⟩
      simp only [tryAddress, hb', if_false, ge_iff_le, hn, if_true, hk0]
      exact hk)
    (scanSteps sc t0 scanStart) h1 h2 h3
  exact ⟨t0 + t1, by omega, by rw [scanSteps_add]; exact h4, by rw [scanSteps_add]; exact h5⟩

/-- With a positive balance at every address the chain of calls never resolves
`deferred`. -/
theorem allFundedScan_unresolved :
    ∀ fuel, (scanSteps allFundedScan fuel scanStart).resolved = false := by
  intro fuel
  induction fuel with
  | zero => rfl
  | succ fuel ih =>
    rw [scanSteps_succ, ih]
    simp only [Bool.false_eq_true, if_false]
    exact (tryAddress_positive_balance allFundedScan _
      (show (0 : Int) < 1 from Int.one_pos)).2.2.2

/-- Claim C11, refuted as stated: under the oracle that reports no transaction for any
address and a balance of 1 for every address, no address has a nonzero transaction count,
and the scan never delivers a result: after 25 probes it is at index 25 of chain 0 with the
counter at 25, and `deferred` is unresolved after any number of probes. -/
theorem termination_counterexample :
    usedAddresses allFundedScan = ∅ ∧
    (usedAddresses allFundedScan).Finite ∧
    (scanSteps allFundedScan 25 scanStart).keyIndex = 0 ∧
    (scanSteps allFundedScan 25 scanStart).addressIndex = 25 ∧
    (scanSteps allFundedScan 25 scanStart).numSequentialAddressesWithoutTxs = 25 ∧
    ¬ ∃ fuel, findSubAddresses allFundedScan fuel ≠ none := by
  have hempty : usedAddresses allFundedScan = ∅ := by
    ext p
    simp [usedAddresses, allFundedScan]
  refine ⟨hempty, by rw [hempty]; exact Set.finite_empty, by decide, by decide, by decide, ?_⟩
  rintro ⟨fuel, h⟩
  apply h
  simp [findSubAddresses, allFundedScan_unresolved fuel]

/-- Claim C11, amended: `findSubAddresses` terminates for every oracle under which only
finitely many (chain, index) addresses have a nonzero transaction count and only finitely
many have a positive balance: after finitely many probes (at most `fuel`) the scan of chain 1
stops, `deferred` is resolved and the scan result is delivered, the same for every larger
number of allowed calls. -/
theorem findSubAddresses_terminates (sc : Scan)
    (hused : (usedAddresses sc).Finite) (hfunded : (fundedAddresses sc).Finite) :
    ∃ fuel result,
      (∀ fuel', fuel ≤ fuel' → findSubAddresses sc fuel' = some result) ∧
      (scanSteps sc fuel scanStart).keyIndex = 1 ∧
      (scanSteps sc fuel scanStart).resolved = true ∧
      (scanSteps sc fuel scanStart).tried.length ≤ fuel := by
  obtain ⟨M, hM⟩ := ((hused.union hfunded).image Prod.snd).bddAbove
  have hz : ∀ k, k ≤ 1 → ∀ i, M + 1 ≤ i →
      (sc.info (subAddressString sc k i)).nb_txs = 0 ∧
      (sc.info (subAddressString sc k i)).balance ≤ 0 := by
    intro k hk i hi
    constructor
    · by_contra hne
      have hmem : i ∈ Prod.snd '' (usedAddresses sc ∪ fundedAddresses sc) :=
        ⟨(k, i), Or.inl ⟨hk, hne⟩, rfl⟩
      have := hM hmem
      omega
    · by_contra hpos
      have hmem : i ∈ Prod.snd '' (usedAddresses sc ∪ fundedAddresses sc) :=
        ⟨(k, i), Or.inr ⟨hk, not_le.mp hpos⟩, rfl⟩
      have := hM hmem
      omega
  obtain ⟨fuel, _, hres, hkey⟩ := scanSteps_resolves_within sc (M + 1) hz
  refine ⟨fuel, (scanSteps sc fuel scanStart).subAddresses, ?_, hkey, hres, ?_⟩
  · intro fuel' hle
    obtain ⟨d, rfl⟩ : ∃ d, fuel' = fuel + d := ⟨fuel' - fuel, by omega⟩
    have hfix : scanSteps sc (fuel + d) scanStart = scanSteps sc fuel scanStart := by
      rw [scanSteps_add]; exact scanSteps_resolved sc _ hres d
    simp [findSubAddresses, hfix, hres]
  · have := scanSteps_tried_length sc fuel scanStart
    simpa [scanStart] using this

/-- The amended termination on the scan in which no address has a transaction or a balance:
the scan result is delivered. -/
theorem findSubAddresses_terminates_witness :
    ∃ fuel result,
      (∀ fuel', fuel ≤ fuel' → findSubAddresses unusedScan fuel' = some result) ∧
      (scanSteps unusedScan fuel scanStart).keyIndex = 1 ∧
      (scanSteps unusedScan fuel scanStart).resolved = true ∧
      (scanSteps unusedScan fuel scanStart).tried.length ≤ fuel :=
  findSubAddresses_terminates unusedScan
    (Set.Finite.subset Set.finite_empty (fun _ hp => (hp.2 rfl).elim))
    (Set.Finite.subset Set.finite_empty (fun _ hp => (lt_irrefl (0 : Int) hp.2).elim))

/-- The scan in which exactly the addresses at chain 0, indices 0 to 5 have a transaction
delivers its result, an empty map, after 26 probes of chain 0 and 20 probes of chain 1, and
not before. -/
theorem findSubAddresses_gapScan :
    findSubAddresses gapScan 46 = some [] ∧ findSubAddresses gapScan 45 = none ∧
    (scanSteps gapScan 46 scanStart).tried =
      (List.range 26).map (fun i => (0, i)) ++ (List.range 20).map (fun i => (1, i)) := by
  refine ⟨by decide, by decide, by decide⟩

end RecoveryTool
